import Mathlib

/-!
Verification development for the `fractal` repository's backtest simulation
engine (`portfolio_lib/services/backtesting/backtester.py`), its strategy
models (`portfolio_lib/models/strategy.py`) and the reference momentum
strategy (`portfolio_lib/services/strategy/momentum.py`).

Modelling conventions (shallow embedding):
* Python `float` arithmetic is modelled by exact rational arithmetic (`ℚ`).
  Every numeric claim checked here is about algebraic relations between the
  quantities the code computes, not about rounding behaviour.
* A pandas `DataFrame` of OHLCV rows is modelled by its date-indexed close
  column: a list of `(date, close)` rows in index order.  `date in df.index`
  becomes an association-list lookup.  Dates are day numbers (`Int`), so the
  Python expression `(d1 - d2).days` is plain integer subtraction.
* Python `dict`s are association lists; `dict.get(k, default)`,
  `dict[k] = v` and iteration over `items()` are mirrored by `lookup`,
  `setKey` and list traversal, preserving insertion order.
* Exceptions raised by a pluggable strategy are modelled by the strategy
  function returning `none`; the engine's `try/except` around the strategy
  invocation becomes a `match` on that option.
* Division by zero is total in `ℚ` (`x / 0 = 0`); none of the claims checked
  below depends on a division whose denominator is zero.
* Audit-only metadata that no claim touches (log strings, `reason` text,
  wall-clock `datetime.now()` timestamps, `scores` fields) is omitted.
-/

namespace Fractal

/-- Ticker symbols, as in the Python code. -/
abbrev Symbol := String

/-- Simulation dates as day numbers; `(d1 - d2).days` is `d1 - d2`. -/
abbrev Date := Int

/-- Association-list model of a Python `dict` keyed by symbols. -/
abbrev Dict (β : Type) := List (Symbol × β)

/-- Model of `m.get(k)` / `k in m`: first binding for `k`, if any. -/
def findKey (m : Dict β) (k : Symbol) : Option β :=
  List.lookup k m

/-- Model of `m.get(k, 0.0)`. -/
def getD0 (m : Dict ℚ) (k : Symbol) : ℚ :=
  (findKey m k).getD 0

/-- Model of `m[k] = v` on a Python dict: overwrite in place if the key is
present (keeping its position), otherwise append. -/
def setKey (m : Dict β) (k : Symbol) (v : β) : Dict β :=
  if m.any (fun p => p.1 == k) then
    m.map (fun p => if p.1 == k then (k, v) else p)
  else
    m ++ [(k, v)]

/-- A per-symbol price series: the date-indexed close column of the
DataFrame returned by the data service, in index order. -/
structure PriceSeries where
  rows : List (Date × ℚ)
deriving DecidableEq, Repr

/-- Model of `price_history`: symbol → DataFrame. -/
abbrev PriceHistory := List (Symbol × PriceSeries)

/-- Close price of `sym` on date `d`, if that date is in the index
(`if current_date in df.index: df.loc[current_date, "close"]`). -/
def priceAt (ph : PriceHistory) (sym : Symbol) (d : Date) : Option ℚ :=
  (List.lookup sym ph).bind (fun ser => List.lookup d ser.rows)

/-- The `current_prices` dict built at the top of each loop iteration of
`_run_simulation`: every symbol whose series has a row at `d`.  (The
`np.isfinite` guard is vacuous over `ℚ`.) -/
def currentPrices (ph : PriceHistory) (d : Date) : Dict ℚ :=
  ph.filterMap (fun p => (List.lookup d p.2.rows).map (fun px => (p.1, px)))

/-- `TradeAction` enum from `models/strategy.py`. -/
inductive TradeAction where
  | buy
  | sell
  | hold
deriving DecidableEq, Repr

/-- `Trade` dataclass from `models/strategy.py` (audit metadata omitted). -/
structure Trade where
  symbol : Symbol
  action : TradeAction
  quantity : ℚ
  price : Option ℚ := none
deriving DecidableEq, Repr

/-- The slice of `BacktestConfig` the simulation uses. -/
structure BacktestConfig where
  start_date : Date
  end_date : Date
  initial_capital : ℚ := 100000
  commission : ℚ := 1 / 1000
  slippage : ℚ := 1 / 2000
  benchmark : Symbol := "SPY"
deriving DecidableEq, Repr

/-- The slice of `StrategyConfig` the simulation and the momentum strategy
use.  `parameters` holds the integer-valued entries the momentum strategy
reads (`lookback_period`, `top_n`). -/
structure StrategyConfig where
  name : String
  parameters : List (String × Int) := []
  rebalance_frequency : String := "monthly"
deriving DecidableEq, Repr

/-- `StrategyResult` dataclass (timestamp / expected-return / confidence
metadata omitted; no claim touches them). -/
structure StrategyResult where
  trades : List Trade
  new_weights : Dict ℚ
deriving DecidableEq, Repr

/-- One entry of the `executed` trade log built by `_execute_trades`
(the `timestamp` / `reason` / `score` metadata fields are omitted). -/
structure ExecutedTrade where
  symbol : Symbol
  action : TradeAction
  quantity_shares : ℚ
  weight_fraction : ℚ
  price : ℚ
  gross_value : ℚ
  commission : ℚ
  slippage : ℚ
  total_cost : ℚ
  net_cash_delta : ℚ
deriving DecidableEq, Repr

/-- The accumulator state of the `for trade in trades` loop in
`_execute_trades`: the dict returned at the end of the function. -/
structure ExecState where
  new_holdings : Dict ℚ
  new_cash : ℚ
  num_trades : Nat
  winning_trades : Nat
  losing_trades : Nat
  executed : List ExecutedTrade
deriving DecidableEq, Repr

/-- One iteration of the trade loop of `_execute_trades`: processes a
single `Trade` against the running state.  Mirrors the Python body
line by line; `continue` becomes returning the state unchanged. -/
def execStep (cfg : BacktestConfig) (current_prices : Dict ℚ)
    (portfolio_value : ℚ) (s : ExecState) (trade : Trade) : ExecState :=
  match findKey current_prices trade.symbol with
  | none => s
  | some price =>
    if price ≤ 0 then s
    else
      let weight_fraction := max 0 (min 1 trade.quantity)
      let dollar_value := weight_fraction * portfolio_value
      if dollar_value ≤ 0 then s
      else
        let shares := dollar_value / price
        let trade_value := shares * price
        let commission := trade_value * cfg.commission
        let slippage := trade_value * cfg.slippage
        let total_cost := commission + slippage
        match trade.action with
        | .buy =>
          let total_needed := trade_value + total_cost
          if s.new_cash ≥ total_needed ∧ shares > 0 then
            { s with
              new_holdings :=
                setKey s.new_holdings trade.symbol
                  (getD0 s.new_holdings trade.symbol + shares)
              new_cash := s.new_cash - total_needed
              num_trades := s.num_trades + 1
              executed := s.executed ++
                [{ symbol := trade.symbol
                   action := .buy
                   quantity_shares := shares
                   weight_fraction := weight_fraction
                   price := price
                   gross_value := trade_value
                   commission := commission
                   slippage := slippage
                   total_cost := total_cost
                   net_cash_delta := -total_needed }] }
          else s
        | .sell =>
          let current_shares := getD0 s.new_holdings trade.symbol
          let shares_to_sell := min current_shares shares
          if shares_to_sell > 0 then
            let gross_value := shares_to_sell * price
            let commission := gross_value * cfg.commission
            let slippage := gross_value * cfg.slippage
            let total_cost := commission + slippage
            let proceeds := gross_value - total_cost
            { s with
              new_holdings :=
                setKey s.new_holdings trade.symbol
                  (current_shares - shares_to_sell)
              new_cash := s.new_cash + proceeds
              num_trades := s.num_trades + 1
              winning_trades :=
                if proceeds > gross_value * (95 / 100) then
                  s.winning_trades + 1
                else s.winning_trades
              losing_trades :=
                if proceeds > gross_value * (95 / 100) then
                  s.losing_trades
                else s.losing_trades + 1
              executed := s.executed ++
                [{ symbol := trade.symbol
                   action := .sell
                   quantity_shares := shares_to_sell
                   weight_fraction := weight_fraction
                   price := price
                   gross_value := gross_value
                   commission := commission
                   slippage := slippage
                   total_cost := total_cost
                   net_cash_delta := proceeds }] }
          else s
        | .hold => s

/-- `_execute_trades`: folds the trade list over `execStep` starting from a
copy of the incoming holdings and cash with zeroed counters. -/
def executeTrades (cfg : BacktestConfig) (trades : List Trade)
    (current_holdings : Dict ℚ) (cash : ℚ) (current_prices : Dict ℚ)
    (portfolio_value : ℚ) : ExecState :=
  trades.foldl (execStep cfg current_prices portfolio_value)
    { new_holdings := current_holdings
      new_cash := cash
      num_trades := 0
      winning_trades := 0
      losing_trades := 0
      executed := [] }

/-- One entry of `rebalance_details` (`scores` and serialized string forms
omitted; the recorded trades are the strategy's intended trades, not the
executed ones, exactly as in `_serialize_trade` over `strategy_result.trades`). -/
structure RebalanceDetail where
  timestamp : Date
  weights : Dict ℚ
  target_weights : Dict ℚ
  trades : List Trade
deriving DecidableEq, Repr

/-- Ghost record of one strategy invocation: the exact arguments
`_run_simulation` passes to `strategy.execute`.  Instrumentation only —
the source logs this information implicitly by making the call. -/
structure StrategyCall where
  date : Date
  weights : Dict ℚ
  history : PriceHistory
  prices : Dict ℚ
deriving DecidableEq, Repr

/-- A pluggable strategy: the engine-facing `execute` method.  A Python
exception is modelled by returning `none`. -/
abbrev Strategy :=
  Dict ℚ → PriceHistory → Dict ℚ → StrategyConfig → Option StrategyResult

/-- The mutable state of the date loop in `_run_simulation`.  The fields up
to `first` are the Python locals; `cash_history` and `calls` are ghost
instrumentation (cash at each recorded date, and every strategy invocation
with its inputs) used to state the invariants. -/
structure SimState where
  holdings : Dict ℚ
  cash : ℚ
  portfolio_values : List ℚ
  daily_returns : List ℚ
  timestamps : List Date
  holdings_history : List (Dict ℚ)
  rebalance_details : List RebalanceDetail
  total_trades : Nat
  winning_trades : Nat
  losing_trades : Nat
  executed_trades : List ExecutedTrade
  last_rebalance_date : Option Date
  prev_portfolio_value : ℚ
  first : Bool
  cash_history : List ℚ
  calls : List StrategyCall
deriving DecidableEq, Repr

/-- The `position_values` dict of one loop iteration: symbol → shares×price
over the held symbols that have a price today. -/
def positionValues (holdings : Dict ℚ) (prices : Dict ℚ) : Dict ℚ :=
  holdings.filterMap
    (fun p => (findKey prices p.1).map (fun px => (p.1, p.2 * px)))

/-- The `invested_total` accumulator: sum of the position values. -/
def investedTotal (holdings : Dict ℚ) (prices : Dict ℚ) : ℚ :=
  ((positionValues holdings prices).map (·.2)).sum

/-- The `current_weights` dict: invested fraction per held symbol, `0` when
nothing is invested or the symbol has no position value today. -/
def currentWeights (holdings : Dict ℚ) (prices : Dict ℚ) : Dict ℚ :=
  let inv := investedTotal holdings prices
  let pvs := positionValues holdings prices
  holdings.map (fun p =>
    (p.1, if 0 < inv ∧ (findKey pvs p.1).isSome then (findKey pvs p.1).getD 0 / inv else 0))

/-- `{symbol: df[df.index <= current_date] for symbol, df in price_history.items()}`:
the truncated read-only view handed to the strategy. -/
def truncateHistory (ph : PriceHistory) (d : Date) : PriceHistory :=
  ph.map (fun p => (p.1, ⟨p.2.rows.filter (fun r => decide (r.1 ≤ d))⟩))

/-- ASCII lowercase of one character (`str.lower()` acts characterwise; the
frequency strings are ASCII). -/
def lowerChar (c : Char) : Char :=
  if 'A' ≤ c ∧ c ≤ 'Z' then Char.ofNat (c.toNat + 32) else c

/-- `frequency.lower()`. -/
def lowerStr (s : String) : String := ⟨s.data.map lowerChar⟩

/-- `_get_rebalance_frequency_days`: frequency string → period in days,
defaulting to 30 for unknown strings. -/
def getRebalanceFrequencyDays (frequency : String) : Int :=
  (List.lookup (lowerStr frequency)
    [("daily", 1), ("weekly", 7), ("monthly", 30), ("quarterly", 90)]).getD 30

/-- The `should_rebalance` condition: no rebalance yet, or the day gap since
the last successful rebalance reaches the period. -/
def shouldRebalance (last : Option Date) (d : Date) (days : Int) : Bool :=
  match last with
  | none => true
  | some lr => decide (days ≤ d - lr)

/-- The record-keeping part of one loop iteration of `_run_simulation`:
price lookup, valuation, and the appends to the recorded series, all of
which happen before the rebalance check.  Holdings, cash and
`last_rebalance_date` are untouched here. -/
def recordDay (ph : PriceHistory) (s : SimState) (d : Date) : SimState :=
  let current_prices := currentPrices ph d
  let portfolio_value := s.cash + investedTotal s.holdings current_prices
  { s with
    portfolio_values := s.portfolio_values ++ [portfolio_value]
    timestamps := s.timestamps ++ [d]
    holdings_history := s.holdings_history ++ [s.holdings]
    cash_history := s.cash_history ++ [s.cash]
    daily_returns :=
      if s.first then s.daily_returns
      else s.daily_returns ++
        [(portfolio_value - s.prev_portfolio_value) / s.prev_portfolio_value]
    prev_portfolio_value := portfolio_value
    first := false }

/-- The rebalance branch of one loop iteration: the strategy call and, on
success, trade application, counter accumulation, diagnostics, and the
`last_rebalance_date` update.  On failure (`none`), the `except` branch
leaves holdings, cash and `last_rebalance_date` untouched.  `s1` is the
state after `recordDay`, whose holdings and cash are those the Python code
passes to `_execute_trades`. -/
def rebalanceDay (strategy : Strategy) (scfg : StrategyConfig)
    (bcfg : BacktestConfig) (ph : PriceHistory) (s1 : SimState) (d : Date) :
    SimState :=
  let current_prices := currentPrices ph d
  let portfolio_value := s1.cash + investedTotal s1.holdings current_prices
  let current_weights := currentWeights s1.holdings current_prices
  let hist := truncateHistory ph d
  let s2 := { s1 with
    calls := s1.calls ++ [⟨d, current_weights, hist, current_prices⟩] }
  match strategy current_weights hist current_prices scfg with
  | none => s2
  | some res =>
    let tr := executeTrades bcfg res.trades s1.holdings s1.cash
      current_prices portfolio_value
    { s2 with
      holdings := tr.new_holdings
      cash := tr.new_cash
      total_trades := s2.total_trades + tr.num_trades
      winning_trades := s2.winning_trades + tr.winning_trades
      losing_trades := s2.losing_trades + tr.losing_trades
      executed_trades := s2.executed_trades ++ tr.executed
      rebalance_details := s2.rebalance_details ++
        [⟨d, current_weights, res.new_weights, res.trades⟩]
      last_rebalance_date := some d }

/-- One iteration of the date loop of `_run_simulation` at date `d`;
`hasNext` is the Python test `i < len(simulation_dates) - 1`.  Since
`recordDay` does not change holdings, cash, `first` or
`last_rebalance_date`, reading them from its output in `rebalanceDay` is
exactly the Python data flow. -/
def simStep (strategy : Strategy) (scfg : StrategyConfig) (bcfg : BacktestConfig)
    (ph : PriceHistory) (s : SimState) (d : Date) (hasNext : Bool) : SimState :=
  let s1 := recordDay ph s d
  if shouldRebalance s.last_rebalance_date d
       (getRebalanceFrequencyDays scfg.rebalance_frequency) && hasNext then
    rebalanceDay strategy scfg bcfg ph s1 d
  else s1

/-- The date loop: `hasNext` is true exactly when further dates remain. -/
def simLoop (strategy : Strategy) (scfg : StrategyConfig) (bcfg : BacktestConfig)
    (ph : PriceHistory) : SimState → List Date → SimState
  | s, [] => s
  | s, d :: rest =>
    simLoop strategy scfg bcfg ph
      (simStep strategy scfg bcfg ph s d (!rest.isEmpty)) rest

/-- All dates appearing in any symbol's index (`all_dates` as a multiset;
made a sorted set below). -/
def gatherDates (ph : PriceHistory) : List Date :=
  ph.flatMap (fun p => p.2.rows.map (·.1))

/-- Insert a date into a strictly-ascending list, dropping duplicates. -/
def insertDate (d : Date) : List Date → List Date
  | [] => [d]
  | e :: rest =>
    if d < e then d :: e :: rest
    else if d = e then e :: rest
    else e :: insertDate d rest

/-- `sorted(list(all_dates))` where `all_dates` is a set: the strictly
ascending enumeration of the distinct dates. -/
def sortedDates (l : List Date) : List Date :=
  l.foldr insertDate []

/-- `simulation_dates`: the sorted set of all index dates, filtered to the
backtest window (inclusive). -/
def simulationDates (ph : PriceHistory) (bcfg : BacktestConfig) : List Date :=
  (sortedDates (gatherDates ph)).filter
    (fun d => decide (bcfg.start_date ≤ d ∧ d ≤ bcfg.end_date))

/-- The `initial_value` loop: value of the starting holdings at the first
simulation date, skipping symbols without a price that day. -/
def initialValueOf (holdings : Dict ℚ) (ph : PriceHistory) (first_date : Date) : ℚ :=
  holdings.foldl
    (fun acc p =>
      match priceAt ph p.1 first_date with
      | some px => acc + p.2 * px
      | none => acc) 0

/-- `cash = max(float(initial_capital) - float(initial_value), 0.0)`. -/
def initialCash (bcfg : BacktestConfig) (holdings : Dict ℚ) (ph : PriceHistory)
    (first_date : Date) : ℚ :=
  max (bcfg.initial_capital - initialValueOf holdings ph first_date) 0

/-- The simulation state entering the date loop. -/
def initSimState (bcfg : BacktestConfig) (initial_holdings : Dict ℚ) (cash0 : ℚ) :
    SimState :=
  { holdings := initial_holdings
    cash := cash0
    portfolio_values := []
    daily_returns := []
    timestamps := []
    holdings_history := []
    rebalance_details := []
    total_trades := 0
    winning_trades := 0
    losing_trades := 0
    executed_trades := []
    last_rebalance_date := none
    prev_portfolio_value := bcfg.initial_capital
    first := true
    cash_history := []
    calls := [] }

/-- `_run_simulation`: date alignment, the fatal `< 2 dates` check, initial
cash, then the date loop.  The final `SimState` carries exactly the entries
of the dict the Python function returns, plus the ghost fields. -/
def runSimulation (strategy : Strategy) (scfg : StrategyConfig)
    (bcfg : BacktestConfig) (initial_holdings : Dict ℚ) (ph : PriceHistory) :
    Except String SimState :=
  match simulationDates ph bcfg with
  | [] => .error "Insufficient data for backtesting period"
  | [_] => .error "Insufficient data for backtesting period"
  | d0 :: d1 :: rest =>
    let cash0 := initialCash bcfg initial_holdings ph d0
    .ok (simLoop strategy scfg bcfg ph
      (initSimState bcfg initial_holdings cash0) (d0 :: d1 :: rest))

/-! ### Reference momentum strategy (`services/strategy/momentum.py`) -/

/-- `config.parameters.get(key, default)` for the integer parameters the
momentum strategy reads. -/
def paramGetI (params : List (String × Int)) (key : String) (default : Int) : Int :=
  (List.lookup key params).getD default

/-- Python `close_prices.iloc[-k]` for `1 ≤ k ≤ len`: the element `k` places
from the end. -/
def ilocFromEnd (closes : List ℚ) (k : Int) : ℚ :=
  closes.getD (closes.length - k.toNat) 0

/-- The per-symbol momentum score: trailing return over the lookback window
when enough rows exist, `-1` otherwise. -/
def momentumScoreOf (lookback : Int) (ser : PriceSeries) : ℚ :=
  let closes := ser.rows.map (·.2)
  if (closes.length : Int) ≥ lookback then
    closes.getLastD 0 / ilocFromEnd closes lookback - 1
  else -1

/-- Stable insertion of a scored symbol into a descending-by-score list:
the new element goes after the existing elements with an equal or higher
score, matching Python's stable `sorted(..., reverse=True)`. -/
def insertScored (x : Symbol × ℚ) : List (Symbol × ℚ) → List (Symbol × ℚ)
  | [] => [x]
  | y :: rest => if y.2 < x.2 then x :: y :: rest else y :: insertScored x rest

/-- `sorted(momentum_scores.items(), key=lambda item: item[1], reverse=True)`. -/
def sortByScoreDesc (xs : List (Symbol × ℚ)) : List (Symbol × ℚ) :=
  xs.foldl (fun acc x => insertScored x acc) []

/-- An enumeration of `set(current_weights.keys()) | set(target_weights.keys())`
(Python set iteration order is unspecified; the per-symbol claims do not
depend on the enumeration order). -/
def unionKeys (a b : Dict ℚ) : List Symbol :=
  (a.map (·.1) ++ b.map (·.1)).dedup

/-- `MomentumStrategy._generate_rebalance_trades`: one trade per union
symbol whose weight delta exceeds `1e-6` and whose price is present and
positive; `quantity = abs((weight_diff * 1.0) / price)`. -/
def generateRebalanceTrades (current_weights target_weights current_prices : Dict ℚ) :
    List Trade :=
  (unionKeys current_weights target_weights).filterMap (fun symbol =>
    let current_weight := getD0 current_weights symbol
    let target_weight := getD0 target_weights symbol
    let weight_diff := target_weight - current_weight
    if |weight_diff| > 1 / 1000000 then
      match findKey current_prices symbol with
      | none => none
      | some price =>
        if price ≤ 0 then none
        else
          let quantity := weight_diff * 1 / price
          some { symbol := symbol
                 action := if weight_diff > 0 then TradeAction.buy else TradeAction.sell
                 quantity := |quantity|
                 price := some price }
    else none)

/-- `MomentumStrategy.execute` (for non-negative `top_n` and positive
`lookback_period`, as in the defaults): validation, scoring, ranking,
target-weight assignment, and trade generation. -/
def momentumExecute (portfolio_weights : Dict ℚ) (price_history : PriceHistory)
    (current_prices : Dict ℚ) (config : StrategyConfig) : Option StrategyResult :=
  if portfolio_weights.isEmpty || price_history.isEmpty || current_prices.isEmpty then
    none
  else
    let lookback := paramGetI config.parameters "lookback_period" 90
    let top_n := paramGetI config.parameters "top_n" 3
    let momentum_scores := price_history.map (fun p => (p.1, momentumScoreOf lookback p.2))
    if momentum_scores.isEmpty then
      some { trades := [], new_weights := [] }
    else
      let sorted_assets := sortByScoreDesc momentum_scores
      let top_assets := (sorted_assets.take top_n.toNat).filterMap
        (fun p => if p.2 > 0 then some p.1 else none)
      let target0 : Dict ℚ :=
        if top_assets.isEmpty then portfolio_weights.map (fun p => (p.1, 0))
        else top_assets.map (fun sym => (sym, 1 / (top_assets.length : ℚ)))
      let target_weights := portfolio_weights.foldl
        (fun tw p => if (findKey tw p.1).isSome then tw else tw ++ [(p.1, 0)]) target0
      some { trades := generateRebalanceTrades portfolio_weights target_weights current_prices
             new_weights := target_weights }

/-! ### Performance metrics (`_calculate_performance_metrics` and friends) -/

/-- `_calculate_max_drawdown`: running-peak drawdown over the value series. -/
def calculateMaxDrawdown (values : List ℚ) : ℚ :=
  match values with
  | [] => 0
  | v0 :: _ =>
    (values.foldl
      (fun acc v =>
        let peak := if v > acc.1 then v else acc.1
        (peak, max acc.2 ((peak - v) / peak)))
      (v0, 0)).2

/-- `_calculate_benchmark_metrics`: (benchmark_return, alpha, beta), with
alpha/beta hardcoded placeholders and the neutral default when the
benchmark has fewer than 2 rows in the window. -/
def calculateBenchmarkMetrics (benchmark : Symbol) (ph : PriceHistory)
    (start_date end_date : Date) : ℚ × ℚ × ℚ :=
  match List.lookup benchmark ph with
  | none => (0, 0, 1)
  | some ser =>
    let bp := (ser.rows.filter (fun r => decide (start_date ≤ r.1 ∧ r.1 ≤ end_date))).map (·.2)
    if bp.length < 2 then (0, 0, 1)
    else ((bp.getLastD 0 - bp.headD 0) / bp.headD 0, 0, 1)

/-- The metric fields of `BacktestResult` produced by
`_calculate_performance_metrics` (real-valued: volatility and annualized
return are irrational in general). -/
structure PerformanceMetrics where
  total_return : ℝ
  annualized_return : ℝ
  volatility : ℝ
  sharpe_ratio : ℝ
  max_drawdown : ℝ
  benchmark_return : ℝ
  alpha : ℝ
  beta : ℝ

/-- `_empty_performance_metrics`: the documented all-zero/neutral default. -/
def emptyPerformanceMetrics : PerformanceMetrics :=
  { total_return := 0
    annualized_return := 0
    volatility := 0
    sharpe_ratio := 0
    max_drawdown := 0
    benchmark_return := 0
    alpha := 0
    beta := 1 }

/-- Sample standard deviation with `ddof = 1`, as `pandas.Series.std`. -/
noncomputable def sampleStd (xs : List ℝ) : ℝ :=
  let m := xs.sum / xs.length
  Real.sqrt ((xs.map (fun x => (x - m) ^ 2)).sum / ((xs.length : ℝ) - 1))

/-- `_calculate_performance_metrics`: the degenerate-run early return for an
empty daily-returns series, else the return/risk/benchmark computations. -/
noncomputable def calculatePerformanceMetrics (sim : SimState)
    (cfg : BacktestConfig) (ph : PriceHistory) : PerformanceMetrics :=
  match sim.daily_returns with
  | [] => emptyPerformanceMetrics
  | _ :: _ =>
    let values := sim.portfolio_values
    let v0 : ℝ := ((values.headD 0 : ℚ) : ℝ)
    let vlast : ℝ := ((values.getLastD 0 : ℚ) : ℝ)
    let total_return := (vlast - v0) / v0
    let days := values.length
    let annualized_return :=
      if 0 < days then (1 + total_return) ^ ((252 : ℝ) / (days : ℝ)) - 1 else 0
    let dr : List ℝ := sim.daily_returns.map (fun q => (q : ℝ))
    let volatility := sampleStd dr * Real.sqrt 252
    let sharpe_ratio :=
      if 0 < volatility then (dr.sum / (dr.length : ℝ) * 252) / volatility else 0
    let b := calculateBenchmarkMetrics cfg.benchmark ph cfg.start_date cfg.end_date
    { total_return := total_return
      annualized_return := annualized_return
      volatility := volatility
      sharpe_ratio := sharpe_ratio
      max_drawdown := ((calculateMaxDrawdown values : ℚ) : ℝ)
      benchmark_return := (b.1 : ℝ)
      alpha := (b.2.1 : ℝ)
      beta := (b.2.2 : ℝ) }

/-! ### The `BacktestResult` dataclass and `run_backtest` construction
(`models/strategy.py` lines 110–161, `backtester.py` lines 104–111).
A Python dataclass-generated `__init__` accepts exactly the declared fields
as keyword arguments, so the construction in `run_backtest` is modelled at
the level of field-name sets. -/

/-- The declared fields of the `BacktestResult` dataclass, in source order. -/
def backtestResultFields : List String :=
  ["strategy_name", "config", "start_date", "end_date",
   "total_return", "annualized_return", "volatility", "sharpe_ratio",
   "max_drawdown", "benchmark_return", "alpha", "beta",
   "total_trades", "winning_trades", "losing_trades",
   "daily_returns", "portfolio_values", "timestamps"]

/-- The keys of the dict returned by `_run_simulation`, splatted into
`BacktestResult(...)` by `run_backtest` via `**simulation_result`. -/
def simulationResultKeys : List String :=
  ["portfolio_values", "daily_returns", "timestamps",
   "total_trades", "winning_trades", "losing_trades",
   "executed_trades", "holdings_history", "rebalance_details"]

/-- The keys of the dict returned by `_calculate_performance_metrics`,
splatted via `**performance_metrics`. -/
def performanceMetricsKeys : List String :=
  ["total_return", "annualized_return", "volatility", "sharpe_ratio",
   "max_drawdown", "benchmark_return", "alpha", "beta"]

/-- The keyword arguments `run_backtest` passes explicitly. -/
def runBacktestExplicitKeys : List String :=
  ["strategy_name", "config", "start_date", "end_date"]

/-- The keys of the dict produced by `BacktestResult.to_dict`. -/
def backtestResultToDictKeys : List String :=
  ["strategy_name", "config", "start_date", "end_date",
   "total_return", "annualized_return", "volatility", "sharpe_ratio",
   "max_drawdown", "benchmark_return", "alpha", "beta",
   "total_trades", "winning_trades", "losing_trades",
   "daily_returns", "portfolio_values", "timestamps"]

/-- The `BacktestResult(...)` call in `run_backtest` succeeds iff every
keyword argument it passes is a declared dataclass field (otherwise the
generated `__init__` raises `TypeError`). -/
def runBacktestConstructionOk : Bool :=
  (runBacktestExplicitKeys ++ performanceMetricsKeys ++ simulationResultKeys).all
    (fun k => backtestResultFields.contains k)

/-! ### Projection lemmas for the loop bodies -/

@[simp] theorem recordDay_holdings (ph : PriceHistory) (s : SimState) (d : Date) :
    (recordDay ph s d).holdings = s.holdings := rfl

@[simp] theorem recordDay_cash (ph : PriceHistory) (s : SimState) (d : Date) :
    (recordDay ph s d).cash = s.cash := rfl

@[simp] theorem recordDay_last_rebalance (ph : PriceHistory) (s : SimState) (d : Date) :
    (recordDay ph s d).last_rebalance_date = s.last_rebalance_date := rfl

@[simp] theorem recordDay_first (ph : PriceHistory) (s : SimState) (d : Date) :
    (recordDay ph s d).first = false := rfl

@[simp] theorem recordDay_calls (ph : PriceHistory) (s : SimState) (d : Date) :
    (recordDay ph s d).calls = s.calls := rfl

@[simp] theorem recordDay_rebalance_details (ph : PriceHistory) (s : SimState) (d : Date) :
    (recordDay ph s d).rebalance_details = s.rebalance_details := rfl

@[simp] theorem recordDay_total_trades (ph : PriceHistory) (s : SimState) (d : Date) :
    (recordDay ph s d).total_trades = s.total_trades := rfl

@[simp] theorem recordDay_winning_trades (ph : PriceHistory) (s : SimState) (d : Date) :
    (recordDay ph s d).winning_trades = s.winning_trades := rfl

@[simp] theorem recordDay_losing_trades (ph : PriceHistory) (s : SimState) (d : Date) :
    (recordDay ph s d).losing_trades = s.losing_trades := rfl

@[simp] theorem recordDay_executed_trades (ph : PriceHistory) (s : SimState) (d : Date) :
    (recordDay ph s d).executed_trades = s.executed_trades := rfl

@[simp] theorem recordDay_portfolio_values (ph : PriceHistory) (s : SimState) (d : Date) :
    (recordDay ph s d).portfolio_values =
      s.portfolio_values ++ [s.cash + investedTotal s.holdings (currentPrices ph d)] := rfl

@[simp] theorem recordDay_timestamps (ph : PriceHistory) (s : SimState) (d : Date) :
    (recordDay ph s d).timestamps = s.timestamps ++ [d] := rfl

@[simp] theorem recordDay_holdings_history (ph : PriceHistory) (s : SimState) (d : Date) :
    (recordDay ph s d).holdings_history = s.holdings_history ++ [s.holdings] := rfl

@[simp] theorem recordDay_cash_history (ph : PriceHistory) (s : SimState) (d : Date) :
    (recordDay ph s d).cash_history = s.cash_history ++ [s.cash] := rfl

theorem recordDay_daily_returns (ph : PriceHistory) (s : SimState) (d : Date) :
    (recordDay ph s d).daily_returns =
      if s.first then s.daily_returns
      else s.daily_returns ++
        [(s.cash + investedTotal s.holdings (currentPrices ph d) - s.prev_portfolio_value) /
          s.prev_portfolio_value] := rfl

theorem rebalanceDay_untouched (strategy : Strategy) (scfg : StrategyConfig)
    (bcfg : BacktestConfig) (ph : PriceHistory) (s1 : SimState) (d : Date) :
    (rebalanceDay strategy scfg bcfg ph s1 d).cash_history = s1.cash_history ∧
    (rebalanceDay strategy scfg bcfg ph s1 d).timestamps = s1.timestamps ∧
    (rebalanceDay strategy scfg bcfg ph s1 d).portfolio_values = s1.portfolio_values ∧
    (rebalanceDay strategy scfg bcfg ph s1 d).holdings_history = s1.holdings_history ∧
    (rebalanceDay strategy scfg bcfg ph s1 d).daily_returns = s1.daily_returns ∧
    (rebalanceDay strategy scfg bcfg ph s1 d).first = s1.first ∧
    (rebalanceDay strategy scfg bcfg ph s1 d).prev_portfolio_value = s1.prev_portfolio_value := by
  rcases hst : strategy (currentWeights s1.holdings (currentPrices ph d))
      (truncateHistory ph d) (currentPrices ph d) scfg with _ | res <;>
    simp [rebalanceDay, hst]

@[simp] theorem simStep_cash_history (strategy : Strategy) (scfg : StrategyConfig)
    (bcfg : BacktestConfig) (ph : PriceHistory) (s : SimState) (d : Date) (b : Bool) :
    (simStep strategy scfg bcfg ph s d b).cash_history = s.cash_history ++ [s.cash] := by
  unfold simStep
  split
  · rw [(rebalanceDay_untouched ..).1, recordDay_cash_history]
  · rw [recordDay_cash_history]

@[simp] theorem simStep_timestamps (strategy : Strategy) (scfg : StrategyConfig)
    (bcfg : BacktestConfig) (ph : PriceHistory) (s : SimState) (d : Date) (b : Bool) :
    (simStep strategy scfg bcfg ph s d b).timestamps = s.timestamps ++ [d] := by
  unfold simStep
  split
  · rw [(rebalanceDay_untouched ..).2.1, recordDay_timestamps]
  · rw [recordDay_timestamps]

@[simp] theorem simStep_portfolio_values (strategy : Strategy) (scfg : StrategyConfig)
    (bcfg : BacktestConfig) (ph : PriceHistory) (s : SimState) (d : Date) (b : Bool) :
    (simStep strategy scfg bcfg ph s d b).portfolio_values =
      s.portfolio_values ++ [s.cash + investedTotal s.holdings (currentPrices ph d)] := by
  unfold simStep
  split
  · rw [(rebalanceDay_untouched ..).2.2.1, recordDay_portfolio_values]
  · rw [recordDay_portfolio_values]

@[simp] theorem simStep_holdings_history (strategy : Strategy) (scfg : StrategyConfig)
    (bcfg : BacktestConfig) (ph : PriceHistory) (s : SimState) (d : Date) (b : Bool) :
    (simStep strategy scfg bcfg ph s d b).holdings_history =
      s.holdings_history ++ [s.holdings] := by
  unfold simStep
  split
  · rw [(rebalanceDay_untouched ..).2.2.2.1, recordDay_holdings_history]
  · rw [recordDay_holdings_history]

@[simp] theorem simStep_first (strategy : Strategy) (scfg : StrategyConfig)
    (bcfg : BacktestConfig) (ph : PriceHistory) (s : SimState) (d : Date) (b : Bool) :
    (simStep strategy scfg bcfg ph s d b).first = false := by
  unfold simStep
  split
  · rw [(rebalanceDay_untouched ..).2.2.2.2.2.1, recordDay_first]
  · rw [recordDay_first]

theorem simStep_daily_returns (strategy : Strategy) (scfg : StrategyConfig)
    (bcfg : BacktestConfig) (ph : PriceHistory) (s : SimState) (d : Date) (b : Bool) :
    (simStep strategy scfg bcfg ph s d b).daily_returns =
      if s.first then s.daily_returns
      else s.daily_returns ++
        [(s.cash + investedTotal s.holdings (currentPrices ph d) - s.prev_portfolio_value) /
          s.prev_portfolio_value] := by
  unfold simStep
  split
  · rw [(rebalanceDay_untouched ..).2.2.2.2.1, recordDay_daily_returns]
  · rw [recordDay_daily_returns]

@[simp] theorem simLoop_nil (strategy : Strategy) (scfg : StrategyConfig)
    (bcfg : BacktestConfig) (ph : PriceHistory) (s : SimState) :
    simLoop strategy scfg bcfg ph s [] = s := rfl

theorem simLoop_cons (strategy : Strategy) (scfg : StrategyConfig)
    (bcfg : BacktestConfig) (ph : PriceHistory) (s : SimState) (d : Date)
    (rest : List Date) :
    simLoop strategy scfg bcfg ph s (d :: rest) =
      simLoop strategy scfg bcfg ph
        (simStep strategy scfg bcfg ph s d (!rest.isEmpty)) rest := rfl

theorem simLoop_timestamps (strategy : Strategy) (scfg : StrategyConfig)
    (bcfg : BacktestConfig) (ph : PriceHistory) (L : List Date) :
    ∀ s : SimState, (simLoop strategy scfg bcfg ph s L).timestamps = s.timestamps ++ L := by
  induction L with
  | nil => intro s; simp
  | cons d rest ih =>
    intro s
    rw [simLoop_cons, ih, simStep_timestamps, List.append_assoc]
    rfl

theorem simLoop_pv_len (strategy : Strategy) (scfg : StrategyConfig)
    (bcfg : BacktestConfig) (ph : PriceHistory) (L : List Date) :
    ∀ s : SimState, (simLoop strategy scfg bcfg ph s L).portfolio_values.length =
      s.portfolio_values.length + L.length := by
  induction L with
  | nil => intro s; simp
  | cons d rest ih =>
    intro s
    rw [simLoop_cons, ih, simStep_portfolio_values]
    simp
    omega

theorem simLoop_hh_len (strategy : Strategy) (scfg : StrategyConfig)
    (bcfg : BacktestConfig) (ph : PriceHistory) (L : List Date) :
    ∀ s : SimState, (simLoop strategy scfg bcfg ph s L).holdings_history.length =
      s.holdings_history.length + L.length := by
  induction L with
  | nil => intro s; simp
  | cons d rest ih =>
    intro s
    rw [simLoop_cons, ih, simStep_holdings_history]
    simp
    omega

theorem simLoop_ch_len (strategy : Strategy) (scfg : StrategyConfig)
    (bcfg : BacktestConfig) (ph : PriceHistory) (L : List Date) :
    ∀ s : SimState, (simLoop strategy scfg bcfg ph s L).cash_history.length =
      s.cash_history.length + L.length := by
  induction L with
  | nil => intro s; simp
  | cons d rest ih =>
    intro s
    rw [simLoop_cons, ih, simStep_cash_history]
    simp
    omega

theorem simLoop_dr_len_false (strategy : Strategy) (scfg : StrategyConfig)
    (bcfg : BacktestConfig) (ph : PriceHistory) (L : List Date) :
    ∀ s : SimState, s.first = false →
      (simLoop strategy scfg bcfg ph s L).daily_returns.length =
        s.daily_returns.length + L.length := by
  induction L with
  | nil => intro s _; simp
  | cons d rest ih =>
    intro s hf
    rw [simLoop_cons, ih _ (simStep_first ..), simStep_daily_returns, hf]
    simp
    omega

theorem simLoop_dr_len_true (strategy : Strategy) (scfg : StrategyConfig)
    (bcfg : BacktestConfig) (ph : PriceHistory) (d : Date) (rest : List Date)
    (s : SimState) (hf : s.first = true) :
    (simLoop strategy scfg bcfg ph s (d :: rest)).daily_returns.length =
      s.daily_returns.length + rest.length := by
  rw [simLoop_cons, simLoop_dr_len_false _ _ _ _ _ _ (simStep_first ..),
    simStep_daily_returns, hf]
  simp

@[simp] theorem freqDays_daily : getRebalanceFrequencyDays "daily" = 1 := by decide

@[simp] theorem freqDays_weekly : getRebalanceFrequencyDays "weekly" = 7 := by decide

@[simp] theorem freqDays_monthly : getRebalanceFrequencyDays "monthly" = 30 := by decide

@[simp] theorem freqDays_quarterly : getRebalanceFrequencyDays "quarterly" = 90 := by decide

/-! ### Concrete scenarios

Small closed runs used to instantiate the general theorems: a run whose
strategy always raises (`scnF`), a normal run with one executed BUY and one
executed SELL (`scnW`), and a run with pathological cost rates
(`commission = slippage = 1`, `scnX`). -/

/-- A strategy that raises on every invocation. -/
def scnFStrat : Strategy := fun _ _ _ _ => none

def scnFScfg : StrategyConfig := { name := "f", rebalance_frequency := "daily" }

def scnFBcfg : BacktestConfig := { start_date := 0, end_date := 5, initial_capital := 5 }

def scnFPh : PriceHistory := [("A", ⟨[(0, 2), (1, 2)]⟩)]

def scnFH : Dict ℚ := [("A", 1)]

/-- The final state of the `scnF` run. -/
def scnFResult : SimState :=
  { holdings := [("A", 1)]
    cash := 3
    portfolio_values := [5, 5]
    daily_returns := [0]
    timestamps := [0, 1]
    holdings_history := [[("A", 1)], [("A", 1)]]
    rebalance_details := []
    total_trades := 0
    winning_trades := 0
    losing_trades := 0
    executed_trades := []
    last_rebalance_date := none
    prev_portfolio_value := 5
    first := false
    cash_history := [3, 3]
    calls := [⟨0, [("A", 1)], [("A", ⟨[(0, 2)]⟩)], [("A", 2)]⟩] }

theorem scnF_run_eq :
    runSimulation scnFStrat scnFScfg scnFBcfg scnFH scnFPh = .ok scnFResult := by
  norm_num [runSimulation, simulationDates, gatherDates, sortedDates, insertDate,
    initialCash, initialValueOf, priceAt, List.lookup, initSimState, simLoop, simStep,
    recordDay, rebalanceDay, shouldRebalance,
    currentPrices, investedTotal, positionValues, currentWeights, truncateHistory,
    findKey, List.filterMap_cons, List.sum_cons, getD0, Option.map,
    instBEqOfDecidableEq, beq_iff_eq,
    scnFStrat, scnFScfg, scnFBcfg, scnFPh, scnFH, scnFResult]

/-- A strategy that buys on the first rebalance (one row of history) and
sells afterwards. -/
def scnWStrat : Strategy := fun _ h _ _ =>
  match List.lookup "A" h with
  | some ser =>
    if ser.rows.length ≥ 2 then
      some { trades := [{ symbol := "A", action := .sell, quantity := 1/4 }]
             new_weights := [("A", 0)] }
    else
      some { trades := [{ symbol := "A", action := .buy, quantity := 1/2 }]
             new_weights := [("A", 1)] }
  | none => none

def scnWScfg : StrategyConfig := { name := "w", rebalance_frequency := "daily" }

def scnWBcfg : BacktestConfig :=
  { start_date := 0, end_date := 10, initial_capital := 10
    commission := 1/10, slippage := 0 }

def scnWPh : PriceHistory := [("A", ⟨[(0, 2), (1, 2), (2, 4)]⟩)]

def scnWH : Dict ℚ := [("A", 1)]

/-- The final state of the `scnW` run: a BUY executed on day 0, a SELL
(classified losing, 10% commission) on day 1, an insufficient-cash BUY never
occurring, and no strategy call on the last day. -/
def scnWResult : SimState :=
  { holdings := [("A", 37/16)]
    cash := 371/80
    portfolio_values := [10, 19/2, 1111/80]
    daily_returns := [-1/20, 351/760]
    timestamps := [0, 1, 2]
    holdings_history := [[("A", 1)], [("A", 7/2)], [("A", 37/16)]]
    rebalance_details :=
      [{ timestamp := 0, weights := [("A", 1)], target_weights := [("A", 1)]
         trades := [{ symbol := "A", action := .buy, quantity := 1/2 }] },
       { timestamp := 1, weights := [("A", 1)], target_weights := [("A", 0)]
         trades := [{ symbol := "A", action := .sell, quantity := 1/4 }] }]
    total_trades := 2
    winning_trades := 0
    losing_trades := 1
    executed_trades :=
      [{ symbol := "A", action := .buy, quantity_shares := 5/2
         weight_fraction := 1/2, price := 2, gross_value := 5
         commission := 1/2, slippage := 0, total_cost := 1/2
         net_cash_delta := -11/2 },
       { symbol := "A", action := .sell, quantity_shares := 19/16
         weight_fraction := 1/4, price := 2, gross_value := 19/8
         commission := 19/80, slippage := 0, total_cost := 19/80
         net_cash_delta := 171/80 }]
    last_rebalance_date := some 1
    prev_portfolio_value := 1111/80
    first := false
    cash_history := [8, 5/2, 371/80]
    calls := [⟨0, [("A", 1)], [("A", ⟨[(0, 2)]⟩)], [("A", 2)]⟩,
              ⟨1, [("A", 1)], [("A", ⟨[(0, 2), (1, 2)]⟩)], [("A", 2)]⟩] }

theorem scnW_run_eq :
    runSimulation scnWStrat scnWScfg scnWBcfg scnWH scnWPh = .ok scnWResult := by
  norm_num [runSimulation, simulationDates, gatherDates, sortedDates, insertDate,
    initialCash, initialValueOf, priceAt, List.lookup, initSimState, simLoop, simStep,
    recordDay, rebalanceDay, shouldRebalance,
    currentPrices, investedTotal, positionValues, currentWeights, truncateHistory,
    findKey, List.filterMap_cons, List.sum_cons, getD0, Option.map,
    instBEqOfDecidableEq, beq_iff_eq,
    executeTrades, execStep, setKey,
    scnWStrat, scnWScfg, scnWBcfg, scnWPh, scnWH, scnWResult]

/-- A strategy that sells the whole position on every rebalance. -/
def scnXStrat : Strategy := fun _ _ _ _ =>
  some { trades := [{ symbol := "A", action := .sell, quantity := 1 }]
         new_weights := [] }

def scnXScfg : StrategyConfig := { name := "x" }

def scnXBcfg : BacktestConfig :=
  { start_date := 0, end_date := 3, initial_capital := 0
    commission := 1, slippage := 1 }

def scnXPh : PriceHistory := [("A", ⟨[(0, 1), (1, 1)]⟩)]

def scnXH : Dict ℚ := [("A", 1)]

/-- The final state of the `scnX` run: with `commission + slippage = 2 > 1`,
the day-0 SELL has negative proceeds and drives cash to `-1`. -/
def scnXResult : SimState :=
  { holdings := [("A", 0)]
    cash := -1
    portfolio_values := [1, -1]
    daily_returns := [-2]
    timestamps := [0, 1]
    holdings_history := [[("A", 1)], [("A", 0)]]
    rebalance_details :=
      [{ timestamp := 0, weights := [("A", 1)], target_weights := []
         trades := [{ symbol := "A", action := .sell, quantity := 1 }] }]
    total_trades := 1
    winning_trades := 0
    losing_trades := 1
    executed_trades :=
      [{ symbol := "A", action := .sell, quantity_shares := 1
         weight_fraction := 1, price := 1, gross_value := 1
         commission := 1, slippage := 1, total_cost := 2
         net_cash_delta := -1 }]
    last_rebalance_date := some 0
    prev_portfolio_value := -1
    first := false
    cash_history := [0, -1]
    calls := [⟨0, [("A", 1)], [("A", ⟨[(0, 1)]⟩)], [("A", 1)]⟩] }

theorem scnX_run_eq :
    runSimulation scnXStrat scnXScfg scnXBcfg scnXH scnXPh = .ok scnXResult := by
  norm_num [runSimulation, simulationDates, gatherDates, sortedDates, insertDate,
    initialCash, initialValueOf, priceAt, List.lookup, initSimState, simLoop, simStep,
    recordDay, rebalanceDay, shouldRebalance,
    currentPrices, investedTotal, positionValues, currentWeights, truncateHistory,
    findKey, List.filterMap_cons, List.sum_cons, getD0, Option.map,
    instBEqOfDecidableEq, beq_iff_eq,
    executeTrades, execStep, setKey,
    scnXStrat, scnXScfg, scnXBcfg, scnXPh, scnXH, scnXResult]

/-! ### Case lemmas for one trade-execution step -/

theorem execStep_no_price (cfg : BacktestConfig) (prices : Dict ℚ) (pv : ℚ)
    (s : ExecState) (t : Trade) (hp : findKey prices t.symbol = none) :
    execStep cfg prices pv s t = s := by
  simp only [execStep, hp]

theorem execStep_nonpos_price (cfg : BacktestConfig) (prices : Dict ℚ) (pv : ℚ)
    (s : ExecState) (t : Trade) (price : ℚ)
    (hp : findKey prices t.symbol = some price) (hle : price ≤ 0) :
    execStep cfg prices pv s t = s := by
  simp only [execStep, hp]
  rw [if_pos hle]

theorem execStep_nonpos_value (cfg : BacktestConfig) (prices : Dict ℚ) (pv : ℚ)
    (s : ExecState) (t : Trade) (price : ℚ)
    (hp : findKey prices t.symbol = some price) (hgt : 0 < price)
    (hdv : max 0 (min 1 t.quantity) * pv ≤ 0) :
    execStep cfg prices pv s t = s := by
  simp only [execStep, hp]
  rw [if_neg (not_le.2 hgt), if_pos hdv]

theorem execStep_hold_eq (cfg : BacktestConfig) (prices : Dict ℚ) (pv : ℚ)
    (s : ExecState) (t : Trade) (price : ℚ)
    (hp : findKey prices t.symbol = some price) (hgt : 0 < price)
    (hdv : 0 < max 0 (min 1 t.quantity) * pv) (hb : t.action = .hold) :
    execStep cfg prices pv s t = s := by
  simp only [execStep, hp, hb]
  rw [if_neg (not_le.2 hgt), if_neg (not_le.2 hdv)]

theorem execStep_buy_insufficient (cfg : BacktestConfig) (prices : Dict ℚ) (pv : ℚ)
    (s : ExecState) (t : Trade) (price : ℚ)
    (hp : findKey prices t.symbol = some price) (hgt : 0 < price)
    (hdv : 0 < max 0 (min 1 t.quantity) * pv) (hb : t.action = .buy)
    (hcash : s.new_cash < max 0 (min 1 t.quantity) * pv +
      (max 0 (min 1 t.quantity) * pv * cfg.commission +
       max 0 (min 1 t.quantity) * pv * cfg.slippage)) :
    execStep cfg prices pv s t = s := by
  have hpne : price ≠ 0 := ne_of_gt hgt
  simp only [execStep, hp, hb]
  rw [if_neg (not_le.2 hgt), if_neg (not_le.2 hdv)]
  rw [div_mul_cancel₀ _ hpne]
  rw [if_neg]
  intro hcon
  exact absurd hcon.1 (not_le.2 hcash)

theorem execStep_buy_exec (cfg : BacktestConfig) (prices : Dict ℚ) (pv : ℚ)
    (s : ExecState) (t : Trade) (price : ℚ)
    (hp : findKey prices t.symbol = some price) (hgt : 0 < price)
    (hdv : 0 < max 0 (min 1 t.quantity) * pv) (hb : t.action = .buy)
    (hcash : s.new_cash ≥ max 0 (min 1 t.quantity) * pv +
      (max 0 (min 1 t.quantity) * pv * cfg.commission +
       max 0 (min 1 t.quantity) * pv * cfg.slippage)) :
    execStep cfg prices pv s t =
      { s with
        new_holdings := setKey s.new_holdings t.symbol
          (getD0 s.new_holdings t.symbol + max 0 (min 1 t.quantity) * pv / price)
        new_cash := s.new_cash - (max 0 (min 1 t.quantity) * pv +
          (max 0 (min 1 t.quantity) * pv * cfg.commission +
           max 0 (min 1 t.quantity) * pv * cfg.slippage))
        num_trades := s.num_trades + 1
        executed := s.executed ++
          [{ symbol := t.symbol
             action := .buy
             quantity_shares := max 0 (min 1 t.quantity) * pv / price
             weight_fraction := max 0 (min 1 t.quantity)
             price := price
             gross_value := max 0 (min 1 t.quantity) * pv
             commission := max 0 (min 1 t.quantity) * pv * cfg.commission
             slippage := max 0 (min 1 t.quantity) * pv * cfg.slippage
             total_cost := max 0 (min 1 t.quantity) * pv * cfg.commission +
               max 0 (min 1 t.quantity) * pv * cfg.slippage
             net_cash_delta := -(max 0 (min 1 t.quantity) * pv +
               (max 0 (min 1 t.quantity) * pv * cfg.commission +
                max 0 (min 1 t.quantity) * pv * cfg.slippage)) }] } := by
  have hpne : price ≠ 0 := ne_of_gt hgt
  simp only [execStep, hp, hb]
  rw [if_neg (not_le.2 hgt), if_neg (not_le.2 hdv)]
  rw [div_mul_cancel₀ _ hpne]
  rw [if_pos ⟨hcash, div_pos hdv hgt⟩]

theorem execStep_sell_exec (cfg : BacktestConfig) (prices : Dict ℚ) (pv : ℚ)
    (s : ExecState) (t : Trade) (price : ℚ)
    (hp : findKey prices t.symbol = some price) (hgt : 0 < price)
    (hdv : 0 < max 0 (min 1 t.quantity) * pv) (hb : t.action = .sell)
    (hsell : 0 < min (getD0 s.new_holdings t.symbol)
      (max 0 (min 1 t.quantity) * pv / price)) :
    execStep cfg prices pv s t =
      { s with
        new_holdings := setKey s.new_holdings t.symbol
          (getD0 s.new_holdings t.symbol -
            min (getD0 s.new_holdings t.symbol) (max 0 (min 1 t.quantity) * pv / price))
        new_cash := s.new_cash +
          (min (getD0 s.new_holdings t.symbol) (max 0 (min 1 t.quantity) * pv / price) *
              price -
            (min (getD0 s.new_holdings t.symbol) (max 0 (min 1 t.quantity) * pv / price) *
                price * cfg.commission +
             min (getD0 s.new_holdings t.symbol) (max 0 (min 1 t.quantity) * pv / price) *
                price * cfg.slippage))
        num_trades := s.num_trades + 1
        winning_trades :=
          if min (getD0 s.new_holdings t.symbol) (max 0 (min 1 t.quantity) * pv / price) *
                price -
              (min (getD0 s.new_holdings t.symbol) (max 0 (min 1 t.quantity) * pv / price) *
                  price * cfg.commission +
               min (getD0 s.new_holdings t.symbol) (max 0 (min 1 t.quantity) * pv / price) *
                  price * cfg.slippage) >
              min (getD0 s.new_holdings t.symbol) (max 0 (min 1 t.quantity) * pv / price) *
                price * (95 / 100) then
            s.winning_trades + 1
          else s.winning_trades
        losing_trades :=
          if min (getD0 s.new_holdings t.symbol) (max 0 (min 1 t.quantity) * pv / price) *
                price -
              (min (getD0 s.new_holdings t.symbol) (max 0 (min 1 t.quantity) * pv / price) *
                  price * cfg.commission +
               min (getD0 s.new_holdings t.symbol) (max 0 (min 1 t.quantity) * pv / price) *
                  price * cfg.slippage) >
              min (getD0 s.new_holdings t.symbol) (max 0 (min 1 t.quantity) * pv / price) *
                price * (95 / 100) then
            s.losing_trades
          else s.losing_trades + 1
        executed := s.executed ++
          [{ symbol := t.symbol
             action := .sell
             quantity_shares :=
               min (getD0 s.new_holdings t.symbol) (max 0 (min 1 t.quantity) * pv / price)
             weight_fraction := max 0 (min 1 t.quantity)
             price := price
             gross_value :=
               min (getD0 s.new_holdings t.symbol) (max 0 (min 1 t.quantity) * pv / price) *
                 price
             commission :=
               min (getD0 s.new_holdings t.symbol) (max 0 (min 1 t.quantity) * pv / price) *
                 price * cfg.commission
             slippage :=
               min (getD0 s.new_holdings t.symbol) (max 0 (min 1 t.quantity) * pv / price) *
                 price * cfg.slippage
             total_cost :=
               min (getD0 s.new_holdings t.symbol) (max 0 (min 1 t.quantity) * pv / price) *
                 price * cfg.commission +
               min (getD0 s.new_holdings t.symbol) (max 0 (min 1 t.quantity) * pv / price) *
                 price * cfg.slippage
             net_cash_delta :=
               min (getD0 s.new_holdings t.symbol) (max 0 (min 1 t.quantity) * pv / price) *
                 price -
                 (min (getD0 s.new_holdings t.symbol)
                     (max 0 (min 1 t.quantity) * pv / price) * price * cfg.commission +
                  min (getD0 s.new_holdings t.symbol)
                     (max 0 (min 1 t.quantity) * pv / price) * price * cfg.slippage) }] } := by
  simp only [execStep, hp, hb]
  rw [if_neg (not_le.2 hgt), if_neg (not_le.2 hdv)]
  rw [if_pos hsell]

theorem execStep_sell_none (cfg : BacktestConfig) (prices : Dict ℚ) (pv : ℚ)
    (s : ExecState) (t : Trade) (price : ℚ)
    (hp : findKey prices t.symbol = some price) (hgt : 0 < price)
    (hdv : 0 < max 0 (min 1 t.quantity) * pv) (hb : t.action = .sell)
    (hsell : min (getD0 s.new_holdings t.symbol)
      (max 0 (min 1 t.quantity) * pv / price) ≤ 0) :
    execStep cfg prices pv s t = s := by
  simp only [execStep, hp, hb]
  rw [if_neg (not_le.2 hgt), if_neg (not_le.2 hdv)]
  rw [if_neg (not_lt.2 hsell)]

/-! ### Claim theorems -/

/-- C1 (code bug): `_run_simulation` returns the keys `holdings_history`,
`rebalance_details` and `executed_trades`, and `run_backtest` splats them
into `BacktestResult(...)`, but the `BacktestResult` dataclass declares no
such fields — its generated `__init__` therefore raises `TypeError` on
every successful simulation, and `to_dict` serializes none of the three
series.  The claim (and the repository's own tests, which read
`res.rebalance_details`) describe the intended behaviour; the dataclass is
missing the three field declarations. -/
theorem C1_backtest_result_missing_series_fields :
    runBacktestConstructionOk = false ∧
    "holdings_history" ∈ simulationResultKeys ∧
    "rebalance_details" ∈ simulationResultKeys ∧
    "executed_trades" ∈ simulationResultKeys ∧
    "holdings_history" ∉ backtestResultFields ∧
    "rebalance_details" ∉ backtestResultFields ∧
    "executed_trades" ∉ backtestResultFields ∧
    "holdings_history" ∉ backtestResultToDictKeys ∧
    "rebalance_details" ∉ backtestResultToDictKeys ∧
    "executed_trades" ∉ backtestResultToDictKeys ∧
    ("portfolio_values" ∈ backtestResultFields ∧
     "daily_returns" ∈ backtestResultFields ∧
     "timestamps" ∈ backtestResultFields) := by decide

/-- C3 (code bug): on a momentum invocation with one symbol `A` at price
100, lookback 2 and rising prices, the target weight moves from 0 to 1, but
the emitted BUY trade has `quantity = |ΔW| / price = 1/100`, not the
absolute weight delta `1` the claim (and the engine's documented
interpretation of `Trade.quantity` as a weight fraction) requires:
`_generate_rebalance_trades` divides the weight delta by the price. -/
theorem C3_momentum_quantity_not_weight_delta :
    momentumExecute [("A", 0)] [("A", ⟨[(0, 50), (1, 100)]⟩)] [("A", 100)]
      { name := "m", parameters := [("lookback_period", 2)] } =
      some { trades := [{ symbol := "A", action := .buy, quantity := 1/100
                          price := some 100 }]
             new_weights := [("A", 1)] } ∧
    (1 / 100 : ℚ) ≠ |(1 : ℚ) - 0| := by
  constructor
  · have hp1 : paramGetI [("lookback_period", 2)] "lookback_period" 90 = 2 := by
      decide
    have hp2 : paramGetI [("lookback_period", 2)] "top_n" 3 = 3 := by decide
    have hsc : momentumScoreOf 2 (⟨[(0, 50), (1, 100)]⟩ : PriceSeries) = 1 := by
      norm_num [momentumScoreOf, ilocFromEnd]
    have hsort : sortByScoreDesc [("A", (1 : ℚ))] = [("A", 1)] := by
      norm_num [sortByScoreDesc, insertScored]
    have htop : List.filterMap (fun p => if p.2 > 0 then some p.1 else none)
        (List.take (Int.toNat 3) [("A", (1 : ℚ))]) = ["A"] := by
      show List.filterMap (fun p => if p.2 > 0 then some p.1 else none)
        (List.take 3 [("A", (1 : ℚ))]) = ["A"]
      norm_num [List.filterMap_cons]
    have htr : generateRebalanceTrades [("A", 0)] [("A", 1)] [("A", 100)] =
        [{ symbol := "A", action := .buy, quantity := 1/100, price := some 100 }] := by
      norm_num [generateRebalanceTrades, unionKeys, getD0, findKey, List.lookup,
        List.dedup, List.pwFilter, List.filterMap_cons,
        instBEqOfDecidableEq, beq_iff_eq]
    have hcfgp : ({ name := "m", parameters := [("lookback_period", 2)] } :
        StrategyConfig).parameters = [("lookback_period", 2)] := rfl
    have htn : (3 : Int).toNat = 3 := rfl
    unfold momentumExecute
    norm_num [hcfgp, hp1, hp2, htn, hsc, hsort, htop, htr, findKey, List.lookup,
      List.filterMap_cons, instBEqOfDecidableEq, beq_iff_eq]
  · norm_num

/-- C9: whenever the recorded daily-returns series is empty, the
performance calculator returns the documented neutral defaults —
total_return, annualized_return, volatility, sharpe_ratio, max_drawdown,
benchmark_return and alpha all `0.0` and beta `1.0` — instead of raising. -/
theorem C9_degenerate_run_neutral_metrics (sim : SimState) (cfg : BacktestConfig)
    (ph : PriceHistory) (h : sim.daily_returns = []) :
    calculatePerformanceMetrics sim cfg ph = emptyPerformanceMetrics ∧
    emptyPerformanceMetrics.total_return = 0 ∧
    emptyPerformanceMetrics.annualized_return = 0 ∧
    emptyPerformanceMetrics.volatility = 0 ∧
    emptyPerformanceMetrics.sharpe_ratio = 0 ∧
    emptyPerformanceMetrics.max_drawdown = 0 ∧
    emptyPerformanceMetrics.benchmark_return = 0 ∧
    emptyPerformanceMetrics.alpha = 0 ∧
    emptyPerformanceMetrics.beta = 1 := by
  refine ⟨?_, rfl, rfl, rfl, rfl, rfl, rfl, rfl, rfl⟩
  unfold calculatePerformanceMetrics
  rw [h]

/-- C9 witness: the degenerate-metrics theorem applied to the initial
simulation state (no recorded returns) of the `scnW` scenario. -/
theorem C9_degenerate_run_neutral_metrics_witness :
    calculatePerformanceMetrics (initSimState scnWBcfg scnWH 8) scnWBcfg scnWPh =
      emptyPerformanceMetrics :=
  (C9_degenerate_run_neutral_metrics (initSimState scnWBcfg scnWH 8) scnWBcfg
    scnWPh rfl).1

/-- The spec-side form of the initial-holdings valuation: a sum over the
symbols that have a price on the first date.  Shown equal to the code's
accumulator loop below. -/
def specInitialValue (holdings : Dict ℚ) (ph : PriceHistory) (d : Date) : ℚ :=
  ((holdings.filter (fun p => (priceAt ph p.1 d).isSome)).map
    (fun p => p.2 * (priceAt ph p.1 d).getD 0)).sum

theorem initialValueOf_foldl (ph : PriceHistory) (d : Date) :
    ∀ (holdings : Dict ℚ) (acc : ℚ),
      holdings.foldl
        (fun acc p =>
          match priceAt ph p.1 d with
          | some px => acc + p.2 * px
          | none => acc) acc = acc + specInitialValue holdings ph d := by
  intro holdings
  induction holdings with
  | nil => intro acc; simp [specInitialValue]
  | cons p rest ih =>
    intro acc
    rcases hp : priceAt ph p.1 d with _ | px <;>
      simp only [List.foldl_cons, hp, ih, specInitialValue, List.filter_cons] <;>
      simp [hp, add_assoc]

theorem initialValueOf_eq_spec (holdings : Dict ℚ) (ph : PriceHistory) (d : Date) :
    initialValueOf holdings ph d = specInitialValue holdings ph d := by
  unfold initialValueOf
  rw [initialValueOf_foldl]
  ring

theorem simLoop_cash_history_prefix (strategy : Strategy) (scfg : StrategyConfig)
    (bcfg : BacktestConfig) (ph : PriceHistory) (L : List Date) :
    ∀ s : SimState, ∃ t, (simLoop strategy scfg bcfg ph s L).cash_history =
      s.cash_history ++ t := by
  induction L with
  | nil => intro s; exact ⟨[], by simp⟩
  | cons d rest ih =>
    intro s
    rcases ih (simStep strategy scfg bcfg ph s d (!rest.isEmpty)) with ⟨t, ht⟩
    refine ⟨[s.cash] ++ t, ?_⟩
    rw [simLoop_cons, ht, simStep_cash_history, List.append_assoc]

/-- C7: for every run with at least two aligned dates, the starting cash —
the first entry of the (ghost) per-date cash series — equals
`max(initial_capital − V, 0)` where `V` sums shares×price over exactly the
initially-held symbols that have a price on the first simulation date. -/
theorem C7_initial_cash (strategy : Strategy) (scfg : StrategyConfig)
    (bcfg : BacktestConfig) (initH : Dict ℚ) (ph : PriceHistory) (r : SimState)
    (hok : runSimulation strategy scfg bcfg initH ph = .ok r) :
    ∃ d0 rest, simulationDates ph bcfg = d0 :: rest ∧
      r.cash_history.head? = some (max (bcfg.initial_capital -
        ((initH.filter (fun p => (priceAt ph p.1 d0).isSome)).map
          (fun p => p.2 * (priceAt ph p.1 d0).getD 0)).sum) 0) := by
  unfold runSimulation at hok
  split at hok
  · exact absurd hok (by simp)
  · exact absurd hok (by simp)
  · rename_i d0 d1 rest heq
    refine ⟨d0, d1 :: rest, heq, ?_⟩
    have hr : r = simLoop strategy scfg bcfg ph
        (initSimState bcfg initH (initialCash bcfg initH ph d0)) (d0 :: d1 :: rest) := by
      cases hok; rfl
    subst hr
    rw [simLoop_cons]
    rcases simLoop_cash_history_prefix strategy scfg bcfg ph (d1 :: rest)
      (simStep strategy scfg bcfg ph
        (initSimState bcfg initH (initialCash bcfg initH ph d0)) d0
        (!(d1 :: rest).isEmpty)) with ⟨t, ht⟩
    rw [ht, simStep_cash_history]
    show (([] ++ [initialCash bcfg initH ph d0]) ++ t).head? = _
    rw [List.nil_append, List.cons_append, List.head?_cons]
    rw [initialCash, initialValueOf_eq_spec]
    rfl

/-- C7 witness: the initial-cash theorem applied to the `scnW` run
(capital 10, one share of `A` priced 2 on the first date, cash 8). -/
theorem C7_initial_cash_witness :
    ∃ d0 rest, simulationDates scnWPh scnWBcfg = d0 :: rest ∧
      scnWResult.cash_history.head? = some (max (scnWBcfg.initial_capital -
        ((scnWH.filter (fun p => (priceAt scnWPh p.1 d0).isSome)).map
          (fun p => p.2 * (priceAt scnWPh p.1 d0).getD 0)).sum) 0) :=
  C7_initial_cash scnWStrat scnWScfg scnWBcfg scnWH scnWPh scnWResult scnW_run_eq

/-- C4: a strategy invocation that raises (returns `none`) leaves holdings,
cash, `last_rebalance_date`, all trade counters and the executed-trade log
unchanged at that date (no partial trade application), and every run that
passes date alignment still records one timestamp, portfolio value, cash
entry and holdings snapshot per simulated date (the timestamps are exactly
the aligned dates) and one daily return per date after the first. -/
theorem C4_strategy_failure_skipped (strategy : Strategy) (scfg : StrategyConfig)
    (bcfg : BacktestConfig) (ph : PriceHistory) (s : SimState) (d : Date) (b : Bool)
    (initH : Dict ℚ) (r : SimState)
    (hfail : strategy (currentWeights s.holdings (currentPrices ph d))
      (truncateHistory ph d) (currentPrices ph d) scfg = none)
    (hok : runSimulation strategy scfg bcfg initH ph = .ok r) :
    ((simStep strategy scfg bcfg ph s d b).holdings = s.holdings ∧
     (simStep strategy scfg bcfg ph s d b).cash = s.cash ∧
     (simStep strategy scfg bcfg ph s d b).last_rebalance_date = s.last_rebalance_date ∧
     (simStep strategy scfg bcfg ph s d b).total_trades = s.total_trades ∧
     (simStep strategy scfg bcfg ph s d b).winning_trades = s.winning_trades ∧
     (simStep strategy scfg bcfg ph s d b).losing_trades = s.losing_trades ∧
     (simStep strategy scfg bcfg ph s d b).executed_trades = s.executed_trades ∧
     (simStep strategy scfg bcfg ph s d b).rebalance_details = s.rebalance_details) ∧
    (r.timestamps = simulationDates ph bcfg ∧
     r.portfolio_values.length = (simulationDates ph bcfg).length ∧
     r.cash_history.length = (simulationDates ph bcfg).length ∧
     r.holdings_history.length = (simulationDates ph bcfg).length ∧
     r.daily_returns.length = (simulationDates ph bcfg).length - 1) := by
  constructor
  · unfold simStep
    split
    · simp [rebalanceDay, hfail]
    · simp
  · unfold runSimulation at hok
    split at hok
    · exact absurd hok (by simp)
    · exact absurd hok (by simp)
    · rename_i d0 d1 rest heq
      have hr : r = simLoop strategy scfg bcfg ph
          (initSimState bcfg initH (initialCash bcfg initH ph d0))
          (d0 :: d1 :: rest) := by
        cases hok; rfl
      subst hr
      rw [heq]
      refine ⟨?_, ?_, ?_, ?_, ?_⟩
      · rw [simLoop_timestamps]; rfl
      · rw [simLoop_pv_len]; simp [initSimState]
      · rw [simLoop_ch_len]; simp [initSimState]
      · rw [simLoop_hh_len]; simp [initSimState]
      · rw [simLoop_dr_len_true _ _ _ _ _ _ _ rfl]; simp [initSimState]

/-- C4 witness: the failure-isolation theorem applied to the `scnF` run,
whose strategy raises on every invocation. -/
theorem C4_strategy_failure_skipped_witness :
    ((simStep scnFStrat scnFScfg scnFBcfg scnFPh (initSimState scnFBcfg scnFH 3) 0
        true).holdings = (initSimState scnFBcfg scnFH 3).holdings ∧
     (simStep scnFStrat scnFScfg scnFBcfg scnFPh (initSimState scnFBcfg scnFH 3) 0
        true).cash = (initSimState scnFBcfg scnFH 3).cash ∧
     (simStep scnFStrat scnFScfg scnFBcfg scnFPh (initSimState scnFBcfg scnFH 3) 0
        true).last_rebalance_date = (initSimState scnFBcfg scnFH 3).last_rebalance_date ∧
     (simStep scnFStrat scnFScfg scnFBcfg scnFPh (initSimState scnFBcfg scnFH 3) 0
        true).total_trades = (initSimState scnFBcfg scnFH 3).total_trades ∧
     (simStep scnFStrat scnFScfg scnFBcfg scnFPh (initSimState scnFBcfg scnFH 3) 0
        true).winning_trades = (initSimState scnFBcfg scnFH 3).winning_trades ∧
     (simStep scnFStrat scnFScfg scnFBcfg scnFPh (initSimState scnFBcfg scnFH 3) 0
        true).losing_trades = (initSimState scnFBcfg scnFH 3).losing_trades ∧
     (simStep scnFStrat scnFScfg scnFBcfg scnFPh (initSimState scnFBcfg scnFH 3) 0
        true).executed_trades = (initSimState scnFBcfg scnFH 3).executed_trades ∧
     (simStep scnFStrat scnFScfg scnFBcfg scnFPh (initSimState scnFBcfg scnFH 3) 0
        true).rebalance_details = (initSimState scnFBcfg scnFH 3).rebalance_details) ∧
    (scnFResult.timestamps = simulationDates scnFPh scnFBcfg ∧
     scnFResult.portfolio_values.length = (simulationDates scnFPh scnFBcfg).length ∧
     scnFResult.cash_history.length = (simulationDates scnFPh scnFBcfg).length ∧
     scnFResult.holdings_history.length = (simulationDates scnFPh scnFBcfg).length ∧
     scnFResult.daily_returns.length = (simulationDates scnFPh scnFBcfg).length - 1) :=
  C4_strategy_failure_skipped scnFStrat scnFScfg scnFBcfg scnFPh
    (initSimState scnFBcfg scnFH 3) 0 true scnFH scnFResult rfl scnF_run_eq

/-- C5: per-trade legality and skip behaviour of `_execute_trades`.  A trade
with a missing price, non-positive price, or non-positive dollar value is
skipped with the state unchanged; a BUY with insufficient cash
(`cash < gross + total_cost`) is skipped with the state unchanged; a BUY
executes exactly when cash covers gross plus costs; a SELL sells
`min(held, requested)` shares, never more than held; a SELL whose clamped
quantity is zero is skipped; and a skipped trade leaves the remaining
trades of the rebalance to execute unchanged.  Everything is a total
function — no exception is raised. -/
theorem C5_trade_legality_and_skip (cfg : BacktestConfig) (prices : Dict ℚ)
    (pv : ℚ) (s : ExecState) (t : Trade) (rest : List Trade) :
    (findKey prices t.symbol = none → execStep cfg prices pv s t = s) ∧
    (∀ price, findKey prices t.symbol = some price → price ≤ 0 →
      execStep cfg prices pv s t = s) ∧
    (∀ price, findKey prices t.symbol = some price → 0 < price →
      max 0 (min 1 t.quantity) * pv ≤ 0 → execStep cfg prices pv s t = s) ∧
    (∀ price dv, findKey prices t.symbol = some price → 0 < price →
      dv = max 0 (min 1 t.quantity) * pv → 0 < dv → t.action = .buy →
      s.new_cash < dv + (dv * cfg.commission + dv * cfg.slippage) →
      execStep cfg prices pv s t = s) ∧
    (∀ price dv, findKey prices t.symbol = some price → 0 < price →
      dv = max 0 (min 1 t.quantity) * pv → 0 < dv → t.action = .buy →
      s.new_cash ≥ dv + (dv * cfg.commission + dv * cfg.slippage) →
      execStep cfg prices pv s t =
        { s with
          new_holdings := setKey s.new_holdings t.symbol
            (getD0 s.new_holdings t.symbol + dv / price)
          new_cash := s.new_cash - (dv + (dv * cfg.commission + dv * cfg.slippage))
          num_trades := s.num_trades + 1
          executed := s.executed ++
            [{ symbol := t.symbol
               action := .buy
               quantity_shares := dv / price
               weight_fraction := max 0 (min 1 t.quantity)
               price := price
               gross_value := dv
               commission := dv * cfg.commission
               slippage := dv * cfg.slippage
               total_cost := dv * cfg.commission + dv * cfg.slippage
               net_cash_delta := -(dv + (dv * cfg.commission + dv * cfg.slippage)) }] }) ∧
    (∀ price dv held sts, findKey prices t.symbol = some price → 0 < price →
      dv = max 0 (min 1 t.quantity) * pv → 0 < dv → t.action = .sell →
      held = getD0 s.new_holdings t.symbol → sts = min held (dv / price) →
      0 < sts →
      sts ≤ held ∧
      execStep cfg prices pv s t =
        { s with
          new_holdings := setKey s.new_holdings t.symbol (held - sts)
          new_cash := s.new_cash +
            (sts * price - (sts * price * cfg.commission + sts * price * cfg.slippage))
          num_trades := s.num_trades + 1
          winning_trades :=
            if sts * price - (sts * price * cfg.commission + sts * price * cfg.slippage) >
                sts * price * (95 / 100) then s.winning_trades + 1
            else s.winning_trades
          losing_trades :=
            if sts * price - (sts * price * cfg.commission + sts * price * cfg.slippage) >
                sts * price * (95 / 100) then s.losing_trades
            else s.losing_trades + 1
          executed := s.executed ++
            [{ symbol := t.symbol
               action := .sell
               quantity_shares := sts
               weight_fraction := max 0 (min 1 t.quantity)
               price := price
               gross_value := sts * price
               commission := sts * price * cfg.commission
               slippage := sts * price * cfg.slippage
               total_cost := sts * price * cfg.commission + sts * price * cfg.slippage
               net_cash_delta := sts * price -
                 (sts * price * cfg.commission + sts * price * cfg.slippage) }] }) ∧
    (∀ price dv held sts, findKey prices t.symbol = some price → 0 < price →
      dv = max 0 (min 1 t.quantity) * pv → 0 < dv → t.action = .sell →
      held = getD0 s.new_holdings t.symbol → sts = min held (dv / price) →
      sts ≤ 0 → execStep cfg prices pv s t = s) ∧
    (execStep cfg prices pv s t = s →
      (t :: rest).foldl (execStep cfg prices pv) s =
        rest.foldl (execStep cfg prices pv) s) := by
  refine ⟨?_, ?_, ?_, ?_, ?_, ?_, ?_, ?_⟩
  · intro hp
    simp only [execStep, hp]
  · intro price hp hle
    simp only [execStep, hp]
    rw [if_pos hle]
  · intro price hp hgt hdv
    simp only [execStep, hp]
    rw [if_neg (not_le.2 hgt), if_pos hdv]
  · intro price dv hp hgt hdveq hdv hb hcash
    subst hdveq
    have hpne : price ≠ 0 := ne_of_gt hgt
    simp only [execStep, hp, hb]
    rw [if_neg (not_le.2 hgt), if_neg (not_le.2 hdv)]
    rw [div_mul_cancel₀ _ hpne]
    rw [if_neg]
    intro hcon
    exact absurd hcon.1 (not_le.2 hcash)
  · intro price dv hp hgt hdveq hdv hb hcash
    subst hdveq
    have hpne : price ≠ 0 := ne_of_gt hgt
    simp only [execStep, hp, hb]
    rw [if_neg (not_le.2 hgt), if_neg (not_le.2 hdv)]
    rw [div_mul_cancel₀ _ hpne]
    rw [if_pos ⟨hcash, div_pos hdv hgt⟩]
  · intro price dv held sts hp hgt hdveq hdv hb hheld hsts hpos
    subst hdveq; subst hheld; subst hsts
    refine ⟨min_le_left _ _, ?_⟩
    simp only [execStep, hp, hb]
    rw [if_neg (not_le.2 hgt), if_neg (not_le.2 hdv)]
    rw [if_pos hpos]
  · intro price dv held sts hp hgt hdveq hdv hb hheld hsts hle
    subst hdveq; subst hheld; subst hsts
    simp only [execStep, hp, hb]
    rw [if_neg (not_le.2 hgt), if_neg (not_le.2 hdv)]
    rw [if_neg (not_lt.2 hle)]
  · intro hskip
    rw [List.foldl_cons, hskip]

/-- C5 witness: the legality theorem at concrete trades — a missing-price
skip, an insufficient-cash BUY skip that leaves a following trade to
execute, and a SELL clamped to the held quantity. -/
theorem C5_trade_legality_and_skip_witness :
    (execStep scnWBcfg [] 10 ⟨[("A", 1)], 0, 0, 0, 0, []⟩
      { symbol := "A", action := .buy, quantity := 1/2 } =
      ⟨[("A", 1)], 0, 0, 0, 0, []⟩) ∧
    (execStep scnWBcfg [("A", 2)] 10 ⟨[("A", 1)], 1, 0, 0, 0, []⟩
      { symbol := "A", action := .buy, quantity := 1/2 } =
      ⟨[("A", 1)], 1, 0, 0, 0, []⟩) ∧
    (([({ symbol := "A", action := .buy, quantity := 1/2 } : Trade)].foldl
        (execStep scnWBcfg [("A", 2)] 10) ⟨[("A", 1)], 1, 0, 0, 0, []⟩) =
      ⟨[("A", 1)], 1, 0, 0, 0, []⟩) ∧
    ((1 : ℚ) ≤ 2 ∧
     execStep { start_date := 0, end_date := 3, initial_capital := 0
                commission := 0, slippage := 0 } [("A", 1)] 1
        ⟨[("A", 2)], 0, 0, 0, 0, []⟩
        { symbol := "A", action := .sell, quantity := 1 } =
      { new_holdings := setKey [("A", 2)] "A" (2 - 1)
        new_cash := 0 + (1 * 1 - (1 * 1 * 0 + 1 * 1 * 0))
        num_trades := 1
        winning_trades := if (1 : ℚ) * 1 - (1 * 1 * 0 + 1 * 1 * 0) > 1 * 1 * (95 / 100)
          then 1 else 0
        losing_trades := if (1 : ℚ) * 1 - (1 * 1 * 0 + 1 * 1 * 0) > 1 * 1 * (95 / 100)
          then 0 else 1
        executed := [{ symbol := "A", action := .sell, quantity_shares := 1
                       weight_fraction := max 0 (min 1 1), price := 1
                       gross_value := 1 * 1, commission := 1 * 1 * 0
                       slippage := 1 * 1 * 0, total_cost := 1 * 1 * 0 + 1 * 1 * 0
                       net_cash_delta := 1 * 1 - (1 * 1 * 0 + 1 * 1 * 0) }] }) := by
  have hskip : execStep scnWBcfg [("A", 2)] 10 ⟨[("A", 1)], 1, 0, 0, 0, []⟩
      { symbol := "A", action := .buy, quantity := 1/2 } =
      ⟨[("A", 1)], 1, 0, 0, 0, []⟩ := by
    refine (C5_trade_legality_and_skip scnWBcfg [("A", 2)] 10
      ⟨[("A", 1)], 1, 0, 0, 0, []⟩
      { symbol := "A", action := .buy, quantity := 1/2 } []).2.2.2.1 2 5
      (by norm_num [findKey, List.lookup, instBEqOfDecidableEq, beq_iff_eq])
      (by norm_num) (by norm_num) (by norm_num) rfl (by norm_num [scnWBcfg])
  refine ⟨?_, hskip, ?_, ?_⟩
  · exact (C5_trade_legality_and_skip scnWBcfg [] 10 ⟨[("A", 1)], 0, 0, 0, 0, []⟩
      { symbol := "A", action := .buy, quantity := 1/2 } []).1 rfl
  · exact (C5_trade_legality_and_skip scnWBcfg [("A", 2)] 10
      ⟨[("A", 1)], 1, 0, 0, 0, []⟩
      { symbol := "A", action := .buy, quantity := 1/2 } []).2.2.2.2.2.2.2 hskip
  · have h6 := (C5_trade_legality_and_skip
      { start_date := 0, end_date := 3, initial_capital := 0
        commission := 0, slippage := 0 } [("A", 1)] 1
      ⟨[("A", 2)], 0, 0, 0, 0, []⟩
      { symbol := "A", action := .sell, quantity := 1 } []).2.2.2.2.2.1 1 1 2 1
      (by norm_num [findKey, List.lookup, instBEqOfDecidableEq, beq_iff_eq])
      (by norm_num) (by norm_num) (by norm_num) rfl
      (by norm_num [getD0, findKey, List.lookup, instBEqOfDecidableEq, beq_iff_eq])
      (by norm_num) (by norm_num)
    exact ⟨h6.1, h6.2⟩

/-! ### Trade-counter bookkeeping (claim C10) -/

/-- The executed SELL records of a trade log. -/
def sellLog (l : List ExecutedTrade) : List ExecutedTrade :=
  l.filter (fun e => e.action == TradeAction.sell)

/-- The executed BUY records of a trade log. -/
def buyLog (l : List ExecutedTrade) : List ExecutedTrade :=
  l.filter (fun e => e.action == TradeAction.buy)

/-- Executed SELLs classified winning: proceeds (`net_cash_delta`) exceed
95% of gross. -/
def winLog (l : List ExecutedTrade) : List ExecutedTrade :=
  l.filter (fun e => e.action == TradeAction.sell &&
    decide (e.net_cash_delta > e.gross_value * (95 / 100)))

/-- Executed SELLs classified losing. -/
def loseLog (l : List ExecutedTrade) : List ExecutedTrade :=
  l.filter (fun e => e.action == TradeAction.sell &&
    !decide (e.net_cash_delta > e.gross_value * (95 / 100)))

theorem winLose_split (l : List ExecutedTrade) :
    (winLog l).length + (loseLog l).length = (sellLog l).length := by
  induction l with
  | nil => rfl
  | cons e rest ih =>
    by_cases ha : e.action = TradeAction.sell
    · by_cases hw : e.net_cash_delta > e.gross_value * (95 / 100)
      · simp [winLog, loseLog, sellLog, List.filter_cons, ha, hw] at ih ⊢
        omega
      · simp [winLog, loseLog, sellLog, List.filter_cons, ha, hw] at ih ⊢
        omega
    · simp [winLog, loseLog, sellLog, List.filter_cons, ha] at ih ⊢
      omega

theorem buySell_split (l : List ExecutedTrade)
    (h : ∀ e ∈ l, e.action = TradeAction.buy ∨ e.action = TradeAction.sell) :
    (sellLog l).length + (buyLog l).length = l.length := by
  induction l with
  | nil => rfl
  | cons e rest ih =>
    have hrest := ih (fun x hx => h x (List.mem_cons_of_mem e hx))
    rcases h e (List.mem_cons_self e rest) with ha | ha <;>
      · simp [sellLog, buyLog, List.filter_cons, ha] at hrest ⊢
        omega

/-- Counter bookkeeping invariant on the trade-execution accumulator. -/
def ExecInv (es : ExecState) : Prop :=
  es.num_trades = es.executed.length ∧
  es.winning_trades = (winLog es.executed).length ∧
  es.losing_trades = (loseLog es.executed).length ∧
  ∀ e ∈ es.executed, e.action = TradeAction.buy ∨ e.action = TradeAction.sell

theorem execStep_inv (cfg : BacktestConfig) (prices : Dict ℚ) (pv : ℚ)
    (es : ExecState) (t : Trade) (h : ExecInv es) :
    ExecInv (execStep cfg prices pv es t) := by
  obtain ⟨h1, h2, h3, h4⟩ := h
  rcases hp : findKey prices t.symbol with _ | price
  · rw [execStep_no_price _ _ _ _ _ hp]; exact ⟨h1, h2, h3, h4⟩
  · by_cases hle : price ≤ 0
    · rw [execStep_nonpos_price _ _ _ _ _ _ hp hle]; exact ⟨h1, h2, h3, h4⟩
    · have hgt : 0 < price := not_le.1 hle
      by_cases hdv : max 0 (min 1 t.quantity) * pv ≤ 0
      · rw [execStep_nonpos_value _ _ _ _ _ _ hp hgt hdv]; exact ⟨h1, h2, h3, h4⟩
      · have hdvp : 0 < max 0 (min 1 t.quantity) * pv := not_le.1 hdv
        rcases hact : t.action with _ | _ | _
        · by_cases hcash : es.new_cash ≥ max 0 (min 1 t.quantity) * pv +
            (max 0 (min 1 t.quantity) * pv * cfg.commission +
             max 0 (min 1 t.quantity) * pv * cfg.slippage)
          · rw [execStep_buy_exec _ _ _ _ _ _ hp hgt hdvp hact hcash]
            refine ⟨by simp [h1], ?_, ?_, ?_⟩
            · simp [winLog, List.filter_append, h2]
            · simp [loseLog, List.filter_append, h3]
            · intro e he
              rcases List.mem_append.1 he with he | he
              · exact h4 e he
              · simp at he; subst he; left; rfl
          · rw [execStep_buy_insufficient _ _ _ _ _ _ hp hgt hdvp hact
              (lt_of_not_ge hcash)]
            exact ⟨h1, h2, h3, h4⟩
        · by_cases hsp : 0 < min (getD0 es.new_holdings t.symbol)
            (max 0 (min 1 t.quantity) * pv / price)
          · rw [execStep_sell_exec _ _ _ _ _ _ hp hgt hdvp hact hsp]
            by_cases hw : min (getD0 es.new_holdings t.symbol)
                  (max 0 (min 1 t.quantity) * pv / price) * price -
                (min (getD0 es.new_holdings t.symbol)
                    (max 0 (min 1 t.quantity) * pv / price) * price * cfg.commission +
                 min (getD0 es.new_holdings t.symbol)
                    (max 0 (min 1 t.quantity) * pv / price) * price * cfg.slippage) >
                min (getD0 es.new_holdings t.symbol)
                  (max 0 (min 1 t.quantity) * pv / price) * price * (95 / 100)
            · refine ⟨by simp [h1], ?_, ?_, ?_⟩
              · simp [winLog, List.filter_append, h2, if_pos hw, hw]
              · simp [loseLog, List.filter_append, h3, if_pos hw, hw]
              · intro e he
                rcases List.mem_append.1 he with he | he
                · exact h4 e he
                · simp at he; subst he; right; rfl
            · refine ⟨by simp [h1], ?_, ?_, ?_⟩
              · simp [winLog, List.filter_append, h2, if_neg hw, hw]
              · simp [loseLog, List.filter_append, h3, if_neg hw, hw]
              · intro e he
                rcases List.mem_append.1 he with he | he
                · exact h4 e he
                · simp at he; subst he; right; rfl
          · rw [execStep_sell_none _ _ _ _ _ _ hp hgt hdvp hact (not_lt.1 hsp)]
            exact ⟨h1, h2, h3, h4⟩
        · rw [execStep_hold_eq _ _ _ _ _ _ hp hgt hdvp hact]
          exact ⟨h1, h2, h3, h4⟩

theorem foldl_execStep_inv (cfg : BacktestConfig) (prices : Dict ℚ) (pv : ℚ)
    (trades : List Trade) :
    ∀ s0 : ExecState, ExecInv s0 →
      ExecInv (trades.foldl (execStep cfg prices pv) s0) := by
  induction trades with
  | nil => intro s0 h; exact h
  | cons t rest ih =>
    intro s0 h
    exact ih _ (execStep_inv cfg prices pv s0 t h)

theorem executeTrades_inv (cfg : BacktestConfig) (trades : List Trade)
    (holdings : Dict ℚ) (cash : ℚ) (prices : Dict ℚ) (pv : ℚ) :
    ExecInv (executeTrades cfg trades holdings cash prices pv) := by
  unfold executeTrades
  exact foldl_execStep_inv cfg prices pv trades _ ⟨rfl, rfl, rfl, by simp⟩

/-- Counter bookkeeping invariant at the simulation level. -/
def SimTradeInv (s : SimState) : Prop :=
  s.total_trades = s.executed_trades.length ∧
  s.winning_trades = (winLog s.executed_trades).length ∧
  s.losing_trades = (loseLog s.executed_trades).length ∧
  ∀ e ∈ s.executed_trades, e.action = TradeAction.buy ∨ e.action = TradeAction.sell

theorem winLog_append (a b : List ExecutedTrade) :
    winLog (a ++ b) = winLog a ++ winLog b := List.filter_append a b

theorem loseLog_append (a b : List ExecutedTrade) :
    loseLog (a ++ b) = loseLog a ++ loseLog b := List.filter_append a b

theorem simStep_trade_inv (strategy : Strategy) (scfg : StrategyConfig)
    (bcfg : BacktestConfig) (ph : PriceHistory) (s : SimState) (d : Date) (b : Bool)
    (h : SimTradeInv s) : SimTradeInv (simStep strategy scfg bcfg ph s d b) := by
  obtain ⟨h1, h2, h3, h4⟩ := h
  unfold simStep
  split
  · unfold rebalanceDay
    rcases hst : strategy (currentWeights (recordDay ph s d).holdings
        (currentPrices ph d)) (truncateHistory ph d) (currentPrices ph d) scfg
      with _ | res
    · simp only [hst]
      exact ⟨h1, h2, h3, h4⟩
    · simp only [hst]
      obtain ⟨t1, t2, t3, t4⟩ := executeTrades_inv bcfg res.trades
        s.holdings s.cash (currentPrices ph d)
        (s.cash + investedTotal s.holdings (currentPrices ph d))
      refine ⟨?_, ?_, ?_, ?_⟩
      · simp [h1, t1]
      · simp [winLog_append, h2, t2]
      · simp [loseLog_append, h3, t3]
      · intro e he
        rcases List.mem_append.1 he with he | he
        · exact h4 e he
        · exact t4 e he
  · exact ⟨h1, h2, h3, h4⟩

theorem simLoop_trade_inv (strategy : Strategy) (scfg : StrategyConfig)
    (bcfg : BacktestConfig) (ph : PriceHistory) (L : List Date) :
    ∀ s : SimState, SimTradeInv s →
      SimTradeInv (simLoop strategy scfg bcfg ph s L) := by
  induction L with
  | nil => intro s h; exact h
  | cons d rest ih =>
    intro s h
    exact ih _ (simStep_trade_inv strategy scfg bcfg ph s d (!rest.isEmpty) h)

/-- C10: the winning/losing counters are exactly the counts of executed
SELLs classified by the `proceeds > 0.95 × gross` heuristic; BUYs increment
neither; hence `winning + losing` equals the number of executed SELLs, is
at most `total_trades` (the length of the executed-trade log), and the
difference is exactly the number of executed BUYs. -/
theorem C10_trade_counters (strategy : Strategy) (scfg : StrategyConfig)
    (bcfg : BacktestConfig) (initH : Dict ℚ) (ph : PriceHistory) (r : SimState)
    (hok : runSimulation strategy scfg bcfg initH ph = .ok r) :
    r.total_trades = r.executed_trades.length ∧
    r.winning_trades = (winLog r.executed_trades).length ∧
    r.losing_trades = (loseLog r.executed_trades).length ∧
    r.winning_trades + r.losing_trades = (sellLog r.executed_trades).length ∧
    (sellLog r.executed_trades).length + (buyLog r.executed_trades).length =
      r.executed_trades.length ∧
    r.winning_trades + r.losing_trades + (buyLog r.executed_trades).length =
      r.total_trades := by
  have hinv : SimTradeInv r := by
    unfold runSimulation at hok
    split at hok
    · exact absurd hok (by simp)
    · exact absurd hok (by simp)
    · rename_i d0 d1 rest heq
      have hr : r = simLoop strategy scfg bcfg ph
          (initSimState bcfg initH (initialCash bcfg initH ph d0))
          (d0 :: d1 :: rest) := by
        cases hok; rfl
      subst hr
      exact simLoop_trade_inv strategy scfg bcfg ph _ _
        ⟨rfl, rfl, rfl, by simp [initSimState]⟩
  obtain ⟨h1, h2, h3, h4⟩ := hinv
  have hwl := winLose_split r.executed_trades
  have hbs := buySell_split r.executed_trades h4
  refine ⟨h1, h2, h3, ?_, hbs, ?_⟩ <;> omega

/-- C10 witness: the counter theorem applied to the `scnW` run (one
executed BUY, one executed losing SELL). -/
theorem C10_trade_counters_witness :
    scnWResult.total_trades = scnWResult.executed_trades.length ∧
    scnWResult.winning_trades = (winLog scnWResult.executed_trades).length ∧
    scnWResult.losing_trades = (loseLog scnWResult.executed_trades).length ∧
    scnWResult.winning_trades + scnWResult.losing_trades =
      (sellLog scnWResult.executed_trades).length ∧
    (sellLog scnWResult.executed_trades).length +
      (buyLog scnWResult.executed_trades).length =
      scnWResult.executed_trades.length ∧
    scnWResult.winning_trades + scnWResult.losing_trades +
      (buyLog scnWResult.executed_trades).length = scnWResult.total_trades :=
  C10_trade_counters scnWStrat scnWScfg scnWBcfg scnWH scnWPh scnWResult scnW_run_eq

/-! ### Conservation and non-negativity (claim C2) -/

theorem lookup_mem {β : Type} {k : Symbol} {v : β} {m : Dict β}
    (h : List.lookup k m = some v) : (k, v) ∈ m := by
  induction m with
  | nil => simp [List.lookup] at h
  | cons p rest ih =>
    rcases p with ⟨a, b⟩
    by_cases hk : k = a
    · subst hk
      simp [List.lookup] at h
      subst h
      exact List.mem_cons_self _ _
    · have hb : (k == a) = false := by simp [hk]
      simp [List.lookup, hb] at h
      exact List.mem_cons_of_mem _ (ih h)

theorem getD0_nonneg (m : Dict ℚ) (k : Symbol) (h : ∀ p ∈ m, 0 ≤ p.2) :
    0 ≤ getD0 m k := by
  unfold getD0 findKey
  rcases hl : List.lookup k m with _ | v
  · simp
  · simpa using h (k, v) (lookup_mem hl)

theorem mem_setKey {m : Dict ℚ} {k : Symbol} {v : ℚ} {q : Symbol × ℚ}
    (hq : q ∈ setKey m k v) : q = (k, v) ∨ q ∈ m := by
  unfold setKey at hq
  split at hq
  · rcases List.mem_map.1 hq with ⟨p, hp, he⟩
    by_cases hk : (p.1 == k) = true
    · rw [if_pos hk] at he
      left; exact he.symm
    · rw [if_neg hk] at he
      right; exact he ▸ hp
  · rcases List.mem_append.1 hq with hm | hm
    · right; exact hm
    · left; simpa using hm

/-- Invested value as the claim states it: the sum over held symbols with
an available price of shares × price. -/
def specInvested (holdings prices : Dict ℚ) : ℚ :=
  ((holdings.filter (fun p => (findKey prices p.1).isSome)).map
    (fun p => p.2 * (findKey prices p.1).getD 0)).sum

theorem investedTotal_eq_spec (holdings prices : Dict ℚ) :
    investedTotal holdings prices = specInvested holdings prices := by
  unfold investedTotal positionValues specInvested
  induction holdings with
  | nil => rfl
  | cons p rest ih =>
    rcases hf : findKey prices p.1 with _ | px <;>
      simp [List.filterMap_cons, hf, List.filter_cons, ih]

/-- Conservation of the recorded series: the parallel series have equal
lengths and each recorded portfolio value is the recorded cash plus the
invested value of the recorded holdings at the recorded date's prices. -/
def Conserved (ph : PriceHistory) (s : SimState) : Prop :=
  s.portfolio_values.length = s.cash_history.length ∧
  s.portfolio_values.length = s.holdings_history.length ∧
  s.portfolio_values.length = s.timestamps.length ∧
  ∀ q ∈ s.portfolio_values.zip (s.cash_history.zip
      (s.holdings_history.zip s.timestamps)),
    q.1 = q.2.1 + specInvested q.2.2.1 (currentPrices ph q.2.2.2)

theorem simStep_conserved (strategy : Strategy) (scfg : StrategyConfig)
    (bcfg : BacktestConfig) (ph : PriceHistory) (s : SimState) (d : Date) (b : Bool)
    (h : Conserved ph s) : Conserved ph (simStep strategy scfg bcfg ph s d b) := by
  obtain ⟨l1, l2, l3, hq⟩ := h
  refine ⟨?_, ?_, ?_, ?_⟩
  · rw [simStep_portfolio_values, simStep_cash_history]; simp [l1]
  · rw [simStep_portfolio_values, simStep_holdings_history]; simp [l2]
  · rw [simStep_portfolio_values, simStep_timestamps]; simp [l3]
  · rw [simStep_portfolio_values, simStep_cash_history, simStep_holdings_history,
      simStep_timestamps]
    rw [List.zip_append (by rw [← l2, ← l3]),
      List.zip_append (by rw [List.length_zip, ← l2, ← l3, ← l1]; simp),
      List.zip_append (by rw [List.length_zip, List.length_zip,
        ← l1, ← l2, ← l3]; simp)]
    intro q hqm
    rcases List.mem_append.1 hqm with hm | hm
    · exact hq q hm
    · simp only [List.zip_cons_cons, List.zip_nil_right] at hm
      simp at hm
      subst hm
      rw [investedTotal_eq_spec]

theorem simLoop_conserved (strategy : Strategy) (scfg : StrategyConfig)
    (bcfg : BacktestConfig) (ph : PriceHistory) (L : List Date) :
    ∀ s : SimState, Conserved ph s →
      Conserved ph (simLoop strategy scfg bcfg ph s L) := by
  induction L with
  | nil => intro s h; exact h
  | cons d rest ih =>
    intro s h
    exact ih _ (simStep_conserved strategy scfg bcfg ph s d (!rest.isEmpty) h)

/-- One trade-execution step keeps cash and share counts non-negative
provided commission + slippage ≤ 1. -/
theorem execStep_nonneg (cfg : BacktestConfig) (prices : Dict ℚ) (pv : ℚ)
    (es : ExecState) (t : Trade) (hcs : cfg.commission + cfg.slippage ≤ 1)
    (hc : 0 ≤ es.new_cash) (hh : ∀ p ∈ es.new_holdings, 0 ≤ p.2) :
    0 ≤ (execStep cfg prices pv es t).new_cash ∧
    ∀ p ∈ (execStep cfg prices pv es t).new_holdings, 0 ≤ p.2 := by
  rcases hp : findKey prices t.symbol with _ | price
  · rw [execStep_no_price _ _ _ _ _ hp]; exact ⟨hc, hh⟩
  · by_cases hle : price ≤ 0
    · rw [execStep_nonpos_price _ _ _ _ _ _ hp hle]; exact ⟨hc, hh⟩
    · have hgt : 0 < price := not_le.1 hle
      by_cases hdv : max 0 (min 1 t.quantity) * pv ≤ 0
      · rw [execStep_nonpos_value _ _ _ _ _ _ hp hgt hdv]; exact ⟨hc, hh⟩
      · have hdvp : 0 < max 0 (min 1 t.quantity) * pv := not_le.1 hdv
        rcases hact : t.action with _ | _ | _
        · by_cases hcash : es.new_cash ≥ max 0 (min 1 t.quantity) * pv +
            (max 0 (min 1 t.quantity) * pv * cfg.commission +
             max 0 (min 1 t.quantity) * pv * cfg.slippage)
          · rw [execStep_buy_exec _ _ _ _ _ _ hp hgt hdvp hact hcash]
            refine ⟨sub_nonneg.2 hcash, ?_⟩
            intro q hqm
            rcases mem_setKey hqm with hq | hq
            · subst hq
              have := getD0_nonneg es.new_holdings t.symbol hh
              have hpos : 0 < max 0 (min 1 t.quantity) * pv / price :=
                div_pos hdvp hgt
              simp only []
              linarith
            · exact hh q hq
          · rw [execStep_buy_insufficient _ _ _ _ _ _ hp hgt hdvp hact
              (lt_of_not_ge hcash)]
            exact ⟨hc, hh⟩
        · by_cases hsp : 0 < min (getD0 es.new_holdings t.symbol)
            (max 0 (min 1 t.quantity) * pv / price)
          · rw [execStep_sell_exec _ _ _ _ _ _ hp hgt hdvp hact hsp]
            have hspp : 0 ≤ min (getD0 es.new_holdings t.symbol)
                (max 0 (min 1 t.quantity) * pv / price) * price :=
              le_of_lt (mul_pos hsp hgt)
            refine ⟨?_, ?_⟩
            · have hpr : min (getD0 es.new_holdings t.symbol)
                  (max 0 (min 1 t.quantity) * pv / price) * price -
                  (min (getD0 es.new_holdings t.symbol)
                      (max 0 (min 1 t.quantity) * pv / price) * price * cfg.commission +
                   min (getD0 es.new_holdings t.symbol)
                      (max 0 (min 1 t.quantity) * pv / price) * price * cfg.slippage) =
                  min (getD0 es.new_holdings t.symbol)
                    (max 0 (min 1 t.quantity) * pv / price) * price *
                    (1 - (cfg.commission + cfg.slippage)) := by ring
              simp only []
              rw [hpr]
              have := mul_nonneg hspp (by linarith : (0:ℚ) ≤ 1 -
                (cfg.commission + cfg.slippage))
              linarith
            · intro q hqm
              rcases mem_setKey hqm with hq | hq
              · subst hq
                simp only []
                have := min_le_left (getD0 es.new_holdings t.symbol)
                  (max 0 (min 1 t.quantity) * pv / price)
                linarith
              · exact hh q hq
          · rw [execStep_sell_none _ _ _ _ _ _ hp hgt hdvp hact (not_lt.1 hsp)]
            exact ⟨hc, hh⟩
        · rw [execStep_hold_eq _ _ _ _ _ _ hp hgt hdvp hact]
          exact ⟨hc, hh⟩

theorem foldl_execStep_nonneg (cfg : BacktestConfig) (prices : Dict ℚ) (pv : ℚ)
    (trades : List Trade) (hcs : cfg.commission + cfg.slippage ≤ 1) :
    ∀ es : ExecState, 0 ≤ es.new_cash → (∀ p ∈ es.new_holdings, 0 ≤ p.2) →
      0 ≤ (trades.foldl (execStep cfg prices pv) es).new_cash ∧
      ∀ p ∈ (trades.foldl (execStep cfg prices pv) es).new_holdings, 0 ≤ p.2 := by
  induction trades with
  | nil => intro es hc hh; exact ⟨hc, hh⟩
  | cons t rest ih =>
    intro es hc hh
    obtain ⟨hc', hh'⟩ := execStep_nonneg cfg prices pv es t hcs hc hh
    exact ih _ hc' hh'

/-- Non-negativity of the running and recorded cash and holdings. -/
def NonnegState (s : SimState) : Prop :=
  0 ≤ s.cash ∧ (∀ p ∈ s.holdings, 0 ≤ p.2) ∧
  (∀ c ∈ s.cash_history, 0 ≤ c) ∧
  (∀ hl ∈ s.holdings_history, ∀ p ∈ hl, 0 ≤ p.2)

theorem simStep_nonneg (strategy : Strategy) (scfg : StrategyConfig)
    (bcfg : BacktestConfig) (ph : PriceHistory) (s : SimState) (d : Date) (b : Bool)
    (hcs : bcfg.commission + bcfg.slippage ≤ 1) (h : NonnegState s) :
    NonnegState (simStep strategy scfg bcfg ph s d b) := by
  obtain ⟨hc, hh, hch, hhh⟩ := h
  have hch' : ∀ c ∈ s.cash_history ++ [s.cash], 0 ≤ c := by
    intro c hcm
    rcases List.mem_append.1 hcm with hm | hm
    · exact hch c hm
    · simp at hm; subst hm; exact hc
  have hhh' : ∀ hl ∈ s.holdings_history ++ [s.holdings], ∀ p ∈ hl, 0 ≤ p.2 := by
    intro hl hlm
    rcases List.mem_append.1 hlm with hm | hm
    · exact hhh hl hm
    · simp at hm; subst hm; exact hh
  unfold simStep
  split
  · unfold rebalanceDay
    rcases hst : strategy (currentWeights (recordDay ph s d).holdings
        (currentPrices ph d)) (truncateHistory ph d) (currentPrices ph d) scfg
      with _ | res
    · simp only [hst]
      exact ⟨hc, hh, hch', hhh'⟩
    · simp only [hst]
      obtain ⟨hc2, hh2⟩ := foldl_execStep_nonneg bcfg (currentPrices ph d)
        (s.cash + investedTotal s.holdings (currentPrices ph d)) res.trades hcs
        { new_holdings := s.holdings, new_cash := s.cash, num_trades := 0,
          winning_trades := 0, losing_trades := 0, executed := [] } hc hh
      exact ⟨hc2, hh2, hch', hhh'⟩
  · exact ⟨hc, hh, hch', hhh'⟩

theorem simLoop_nonneg (strategy : Strategy) (scfg : StrategyConfig)
    (bcfg : BacktestConfig) (ph : PriceHistory) (L : List Date)
    (hcs : bcfg.commission + bcfg.slippage ≤ 1) :
    ∀ s : SimState, NonnegState s →
      NonnegState (simLoop strategy scfg bcfg ph s L) := by
  induction L with
  | nil => intro s h; exact h
  | cons d rest ih =>
    intro s h
    exact ih _ (simStep_nonneg strategy scfg bcfg ph s d (!rest.isEmpty) hcs h)

/-- C2 counterexample: with `commission = slippage = 1`
(`commission + slippage = 2 > 1`), the recorded run `scnX` drives cash to
`-1`: the claim that cash never becomes negative through trade execution
fails as stated, because the engine never validates the cost rates and a
SELL's proceeds `gross × (1 − commission − slippage)` are negative. -/
theorem C2_cash_negative_counterexample :
    runSimulation scnXStrat scnXScfg scnXBcfg scnXH scnXPh = .ok scnXResult ∧
    scnXBcfg.commission = 1 ∧ scnXBcfg.slippage = 1 ∧
    scnXResult.cash = -1 ∧ scnXResult.cash < 0 ∧
    (-1 : ℚ) ∈ scnXResult.cash_history := by
  refine ⟨scnX_run_eq, rfl, rfl, rfl, by norm_num [scnXResult], by
    norm_num [scnXResult]⟩

/-- C2 (amended): conservation — each recorded portfolio value equals the
recorded cash plus Σ shares×price over priced symbols — holds for every
run unconditionally; and provided `commission + slippage ≤ 1` (the spec's
fractional cost rates) and non-negative initial holdings (the data-model
invariant), cash and share counts stay non-negative through every
trade-execution step and at every recorded date. -/
theorem C2_conservation_and_nonneg (strategy : Strategy) (scfg : StrategyConfig)
    (bcfg : BacktestConfig) (initH : Dict ℚ) (ph : PriceHistory) (r : SimState)
    (hok : runSimulation strategy scfg bcfg initH ph = .ok r) :
    (r.portfolio_values.length = r.cash_history.length ∧
     r.portfolio_values.length = r.holdings_history.length ∧
     r.portfolio_values.length = r.timestamps.length ∧
     ∀ q ∈ r.portfolio_values.zip (r.cash_history.zip
         (r.holdings_history.zip r.timestamps)),
       q.1 = q.2.1 + specInvested q.2.2.1 (currentPrices ph q.2.2.2)) ∧
    (bcfg.commission + bcfg.slippage ≤ 1 → (∀ p ∈ initH, 0 ≤ p.2) →
     (0 ≤ r.cash ∧ (∀ p ∈ r.holdings, 0 ≤ p.2) ∧
      (∀ c ∈ r.cash_history, 0 ≤ c) ∧
      (∀ hl ∈ r.holdings_history, ∀ p ∈ hl, 0 ≤ p.2))) ∧
    (∀ (prices : Dict ℚ) (pv : ℚ) (es : ExecState) (t : Trade),
      bcfg.commission + bcfg.slippage ≤ 1 → 0 ≤ es.new_cash →
      (∀ p ∈ es.new_holdings, 0 ≤ p.2) →
      0 ≤ (execStep bcfg prices pv es t).new_cash ∧
      ∀ p ∈ (execStep bcfg prices pv es t).new_holdings, 0 ≤ p.2) := by
  have hrun : ∀ P : SimState → Prop,
      (∀ d0 rest, simulationDates ph bcfg = d0 :: rest →
        P (simLoop strategy scfg bcfg ph
          (initSimState bcfg initH (initialCash bcfg initH ph d0)) (d0 :: rest))) →
      P r := by
    intro P hP
    unfold runSimulation at hok
    split at hok
    · exact absurd hok (by simp)
    · exact absurd hok (by simp)
    · rename_i d0 d1 rest heq
      have hr : r = simLoop strategy scfg bcfg ph
          (initSimState bcfg initH (initialCash bcfg initH ph d0))
          (d0 :: d1 :: rest) := by
        cases hok; rfl
      subst hr
      exact hP d0 (d1 :: rest) heq
  refine ⟨?_, ?_, fun prices pv es t hcs hc hh =>
    execStep_nonneg bcfg prices pv es t hcs hc hh⟩
  · exact hrun (Conserved ph) (fun d0 rest heq =>
      simLoop_conserved strategy scfg bcfg ph (d0 :: rest) _
        ⟨rfl, rfl, rfl, by simp [initSimState]⟩)
  · intro hcs hinit
    exact hrun NonnegState (fun d0 rest heq =>
      simLoop_nonneg strategy scfg bcfg ph (d0 :: rest) hcs _
        ⟨le_max_right _ 0, hinit,
         by intro c hcm; simp [initSimState] at hcm,
         by intro hl hlm; simp [initSimState] at hlm⟩)

/-- C2 witness: the conservation/non-negativity theorem applied to the
`scnW` run, whose cost rates sum to 1/10 and whose initial holdings are
one share of `A`. -/
theorem C2_conservation_and_nonneg_witness :
    ((scnWResult.portfolio_values.length = scnWResult.cash_history.length ∧
      scnWResult.portfolio_values.length = scnWResult.holdings_history.length ∧
      scnWResult.portfolio_values.length = scnWResult.timestamps.length ∧
      ∀ q ∈ scnWResult.portfolio_values.zip (scnWResult.cash_history.zip
          (scnWResult.holdings_history.zip scnWResult.timestamps)),
        q.1 = q.2.1 + specInvested q.2.2.1 (currentPrices scnWPh q.2.2.2)) ∧
     (0 ≤ scnWResult.cash ∧ (∀ p ∈ scnWResult.holdings, 0 ≤ p.2) ∧
      (∀ c ∈ scnWResult.cash_history, 0 ≤ c) ∧
      (∀ hl ∈ scnWResult.holdings_history, ∀ p ∈ hl, 0 ≤ p.2))) :=
  ⟨(C2_conservation_and_nonneg scnWStrat scnWScfg scnWBcfg scnWH scnWPh
      scnWResult scnW_run_eq).1,
   (C2_conservation_and_nonneg scnWStrat scnWScfg scnWBcfg scnWH scnWPh
      scnWResult scnW_run_eq).2.1 (by norm_num [scnWBcfg]) (by norm_num [scnWH])⟩

/-! ### Sortedness of the simulation date axis -/

theorem insertDate_mem (d : Date) (l : List Date) (x : Date) :
    x ∈ insertDate d l ↔ x = d ∨ x ∈ l := by
  induction l with
  | nil => simp [insertDate]
  | cons e rest ih =>
    unfold insertDate
    by_cases h1 : d < e
    · rw [if_pos h1]
      simp
    · by_cases h2 : d = e
      · subst h2
        rw [if_neg h1, if_pos rfl]
        simp
      · rw [if_neg h1, if_neg h2]
        simp [ih]
        tauto

theorem insertDate_pairwise (d : Date) (l : List Date)
    (h : l.Pairwise (· < ·)) : (insertDate d l).Pairwise (· < ·) := by
  induction l with
  | nil => simp [insertDate]
  | cons e rest ih =>
    rcases List.pairwise_cons.1 h with ⟨he, hrest⟩
    unfold insertDate
    by_cases h1 : d < e
    · rw [if_pos h1]
      refine List.pairwise_cons.2 ⟨?_, h⟩
      intro x hx
      rcases List.mem_cons.1 hx with rfl | hx
      · exact h1
      · exact lt_trans h1 (he x hx)
    · by_cases h2 : d = e
      · rw [if_neg h1, if_pos h2]
        exact h
      · rw [if_neg h1, if_neg h2]
        have hed : e < d :=
          lt_of_le_of_ne (not_lt.1 h1) (fun hh => h2 hh.symm)
        refine List.pairwise_cons.2 ⟨?_, ih hrest⟩
        intro x hx
        rcases (insertDate_mem d rest x).1 hx with rfl | hx
        · exact hed
        · exact he x hx

theorem sortedDates_pairwise (l : List Date) :
    (sortedDates l).Pairwise (· < ·) := by
  unfold sortedDates
  induction l with
  | nil => simp
  | cons d rest ih => exact insertDate_pairwise d _ ih

theorem sortedDates_mem (l : List Date) (x : Date) :
    x ∈ sortedDates l ↔ x ∈ l := by
  unfold sortedDates
  induction l with
  | nil => simp
  | cons d rest ih =>
    rw [List.foldr_cons, insertDate_mem]
    simp [ih]

theorem simulationDates_pairwise (ph : PriceHistory) (bcfg : BacktestConfig) :
    (simulationDates ph bcfg).Pairwise (· < ·) :=
  (sortedDates_pairwise (gatherDates ph)).filter _

theorem simulationDates_mem (ph : PriceHistory) (bcfg : BacktestConfig) (x : Date) :
    x ∈ simulationDates ph bcfg ↔
      x ∈ gatherDates ph ∧ bcfg.start_date ≤ x ∧ x ≤ bcfg.end_date := by
  unfold simulationDates
  rw [List.mem_filter, sortedDates_mem]
  simp

/-- A member of the `dropLast` of a strictly ascending list is not its
last element. -/
theorem pairwise_dropLast_ne_getLast (l : List Date)
    (hp : l.Pairwise (· < ·)) (hne : l ≠ []) (x : Date)
    (hx : x ∈ l.dropLast) : x ≠ l.getLast hne := by
  have hsplit := List.dropLast_append_getLast hne
  rw [← hsplit] at hp
  rcases List.pairwise_append.1 hp with ⟨_, _, hlt⟩
  have := hlt x hx (l.getLast hne) (List.mem_singleton_self _)
  exact ne_of_lt this

/-! ### Strategy-call characterization (claim C6) -/

/-- The ghost record a strategy invocation at date `d` appends. -/
def callOf (ph : PriceHistory) (s : SimState) (d : Date) : StrategyCall :=
  ⟨d, currentWeights s.holdings (currentPrices ph d), truncateHistory ph d,
    currentPrices ph d⟩

theorem simStep_calls (strategy : Strategy) (scfg : StrategyConfig)
    (bcfg : BacktestConfig) (ph : PriceHistory) (s : SimState) (d : Date) (b : Bool) :
    (b = false ∨ shouldRebalance s.last_rebalance_date d
        (getRebalanceFrequencyDays scfg.rebalance_frequency) = false) ∧
      (simStep strategy scfg bcfg ph s d b).calls = s.calls ∨
    (b = true ∧ shouldRebalance s.last_rebalance_date d
        (getRebalanceFrequencyDays scfg.rebalance_frequency) = true) ∧
      (simStep strategy scfg bcfg ph s d b).calls = s.calls ++ [callOf ph s d] := by
  unfold simStep
  split
  · rename_i hcond
    rw [Bool.and_eq_true] at hcond
    obtain ⟨hsr, hb⟩ := hcond
    right
    refine ⟨⟨hb, hsr⟩, ?_⟩
    unfold rebalanceDay
    rcases hst : strategy (currentWeights (recordDay ph s d).holdings
        (currentPrices ph d)) (truncateHistory ph d) (currentPrices ph d) scfg
      with _ | res <;> simp only [hst] <;> rfl
  · rename_i hcond
    left
    refine ⟨?_, rfl⟩
    rw [Bool.and_eq_true, not_and_or, Bool.not_eq_true, Bool.not_eq_true] at hcond
    rcases hcond with hsr | hb
    · right; exact hsr
    · left; exact hb

theorem simLoop_calls (strategy : Strategy) (scfg : StrategyConfig)
    (bcfg : BacktestConfig) (ph : PriceHistory) (L : List Date) :
    ∀ s : SimState, ∃ t, (simLoop strategy scfg bcfg ph s L).calls = s.calls ++ t ∧
      ∀ c ∈ t, c.date ∈ L.dropLast ∧ c.history = truncateHistory ph c.date := by
  induction L with
  | nil => intro s; exact ⟨[], by simp, by simp⟩
  | cons d rest ih =>
    intro s
    rcases ih (simStep strategy scfg bcfg ph s d (!rest.isEmpty)) with ⟨t, ht, hmem⟩
    rw [simLoop_cons]
    rcases simStep_calls strategy scfg bcfg ph s d (!rest.isEmpty) with
      ⟨_, heq⟩ | ⟨⟨hb, _⟩, heq⟩
    · refine ⟨t, by rw [ht, heq], ?_⟩
      intro c hc
      rcases hmem c hc with ⟨hcd, hch⟩
      refine ⟨?_, hch⟩
      rcases rest with _ | ⟨e, rest'⟩
      · simp at hcd
      · exact List.mem_cons_of_mem d hcd
    · have hrest : rest ≠ [] := by
        intro hre
        rw [hre] at hb
        simp at hb
      refine ⟨[callOf ph s d] ++ t, by rw [ht, heq, List.append_assoc], ?_⟩
      intro c hc
      rcases List.mem_append.1 hc with hc | hc
      · simp at hc
        subst hc
        refine ⟨?_, rfl⟩
        rcases rest with _ | ⟨e, rest'⟩
        · exact absurd rfl hrest
        · exact List.mem_cons_self _ _
      · rcases hmem c hc with ⟨hcd, hch⟩
        refine ⟨?_, hch⟩
        rcases rest with _ | ⟨e, rest'⟩
        · simp at hcd
        · exact List.mem_cons_of_mem d hcd

/-- The rebalance-gap invariant: recorded rebalance timestamps are at least
the period apart, and `last_rebalance_date` is the last recorded timestamp. -/
def GapInv (p : Int) (s : SimState) : Prop :=
  List.Chain' (fun a b => p ≤ b - a) (s.rebalance_details.map (·.timestamp)) ∧
  s.last_rebalance_date = (s.rebalance_details.map (·.timestamp)).getLast?

theorem simStep_gap_inv (strategy : Strategy) (scfg : StrategyConfig)
    (bcfg : BacktestConfig) (ph : PriceHistory) (s : SimState) (d : Date) (b : Bool)
    (h : GapInv (getRebalanceFrequencyDays scfg.rebalance_frequency) s) :
    GapInv (getRebalanceFrequencyDays scfg.rebalance_frequency)
      (simStep strategy scfg bcfg ph s d b) := by
  obtain ⟨hchain, hlast⟩ := h
  unfold simStep
  split
  · rename_i hcond
    rw [Bool.and_eq_true] at hcond
    obtain ⟨hsr, _⟩ := hcond
    unfold rebalanceDay
    rcases hst : strategy (currentWeights (recordDay ph s d).holdings
        (currentPrices ph d)) (truncateHistory ph d) (currentPrices ph d) scfg
      with _ | res
    · simp only [hst]
      exact ⟨hchain, hlast⟩
    · simp only [hst]
      refine ⟨?_, ?_⟩
      · simp only [List.map_append, List.map_cons, List.map_nil]
        apply List.chain'_append.2
        refine ⟨hchain, List.chain'_singleton _, ?_⟩
        intro x hx y hy
        simp at hy
        subst hy
        rw [recordDay_rebalance_details] at hx
        rw [← hlast, Option.mem_def] at hx
        unfold shouldRebalance at hsr
        rw [hx] at hsr
        simpa using hsr
      · simp only [List.map_append, List.map_cons, List.map_nil]
        simp [List.getLast?_concat]
  · exact ⟨hchain, hlast⟩

theorem simLoop_gap_inv (strategy : Strategy) (scfg : StrategyConfig)
    (bcfg : BacktestConfig) (ph : PriceHistory) (L : List Date) :
    ∀ s : SimState, GapInv (getRebalanceFrequencyDays scfg.rebalance_frequency) s →
      GapInv (getRebalanceFrequencyDays scfg.rebalance_frequency)
        (simLoop strategy scfg bcfg ph s L) := by
  induction L with
  | nil => intro s h; exact h
  | cons d rest ih =>
    intro s h
    exact ih _ (simStep_gap_inv strategy scfg bcfg ph s d (!rest.isEmpty) h)

/-- C6: the strategy is invoked at a simulation date iff that date is not
the last one and either no rebalance has happened yet or the day gap since
the last successful rebalance is at least the configured period
(daily 1, weekly 7, monthly 30, quarterly 90); consequently consecutive
recorded rebalance timestamps are at least the period apart and the final
simulated date never triggers a strategy call. -/
theorem C6_rebalance_trigger (strategy : Strategy) (scfg : StrategyConfig)
    (bcfg : BacktestConfig) (initH : Dict ℚ) (ph : PriceHistory) (r : SimState)
    (s : SimState) (d : Date) (b : Bool)
    (hok : runSimulation strategy scfg bcfg initH ph = .ok r) :
    (getRebalanceFrequencyDays "daily" = 1 ∧
     getRebalanceFrequencyDays "weekly" = 7 ∧
     getRebalanceFrequencyDays "monthly" = 30 ∧
     getRebalanceFrequencyDays "quarterly" = 90) ∧
    (∀ (last : Option Date) (e : Date) (p : Int),
      shouldRebalance last e p = true ↔
        (last = none ∨ ∃ lr, last = some lr ∧ p ≤ e - lr)) ∧
    ((simStep strategy scfg bcfg ph s d b).calls ≠ s.calls ↔
      (b = true ∧ shouldRebalance s.last_rebalance_date d
        (getRebalanceFrequencyDays scfg.rebalance_frequency) = true)) ∧
    (∀ c ∈ r.calls, c.date ∈ (simulationDates ph bcfg).dropLast) ∧
    (∀ c ∈ r.calls, ∀ hne : simulationDates ph bcfg ≠ [],
      c.date ≠ (simulationDates ph bcfg).getLast hne) ∧
    List.Chain'
      (fun a a2 => getRebalanceFrequencyDays scfg.rebalance_frequency ≤ a2 - a)
      (r.rebalance_details.map (·.timestamp)) := by
  have hcalls : ∀ c ∈ r.calls, c.date ∈ (simulationDates ph bcfg).dropLast := by
    unfold runSimulation at hok
    split at hok
    · exact absurd hok (by simp)
    · exact absurd hok (by simp)
    · rename_i d0 d1 rest heq
      have hr : r = simLoop strategy scfg bcfg ph
          (initSimState bcfg initH (initialCash bcfg initH ph d0))
          (d0 :: d1 :: rest) := by
        cases hok; rfl
      subst hr
      rcases simLoop_calls strategy scfg bcfg ph (d0 :: d1 :: rest)
        (initSimState bcfg initH (initialCash bcfg initH ph d0)) with ⟨t, ht, hmem⟩
      intro c hc
      rw [ht] at hc
      rw [heq]
      rcases List.mem_append.1 hc with hc | hc
      · simp [initSimState] at hc
      · exact (hmem c hc).1
  refine ⟨⟨by decide, by decide, by decide, by decide⟩, ?_, ?_, hcalls, ?_, ?_⟩
  · intro last e p
    rcases last with _ | lr
    · simp [shouldRebalance]
    · simp [shouldRebalance]
  · constructor
    · intro hne
      rcases simStep_calls strategy scfg bcfg ph s d b with ⟨_, heq⟩ | ⟨hcond, _⟩
      · exact absurd heq hne
      · exact hcond
    · rintro ⟨hb, hsr⟩
      rcases simStep_calls strategy scfg bcfg ph s d b with ⟨hcond, _⟩ | ⟨_, heq⟩
      · rcases hcond with hb' | hsr'
        · rw [hb] at hb'; exact absurd hb' (by simp)
        · rw [hsr] at hsr'; exact absurd hsr' (by simp)
      · rw [heq]
        intro hcon
        have hlen := congrArg List.length hcon
        simp at hlen
  · intro c hc hne
    exact pairwise_dropLast_ne_getLast (simulationDates ph bcfg)
      (simulationDates_pairwise ph bcfg) hne c.date (hcalls c hc)
  · unfold runSimulation at hok
    split at hok
    · exact absurd hok (by simp)
    · exact absurd hok (by simp)
    · rename_i d0 d1 rest heq
      have hr : r = simLoop strategy scfg bcfg ph
          (initSimState bcfg initH (initialCash bcfg initH ph d0))
          (d0 :: d1 :: rest) := by
        cases hok; rfl
      subst hr
      exact (simLoop_gap_inv strategy scfg bcfg ph (d0 :: d1 :: rest) _
        ⟨by simp [initSimState], by simp [initSimState]⟩).1

/-- C6 witness: the trigger theorem at the `scnW` run (daily cadence; calls
on days 0 and 1, none on the final day 2; recorded rebalance gap 1 ≥ 1)
with the step instantiated at the initial state and date 0. -/
theorem C6_rebalance_trigger_witness :
    ((simStep scnWStrat scnWScfg scnWBcfg scnWPh
        (initSimState scnWBcfg scnWH 8) 0 true).calls ≠
      (initSimState scnWBcfg scnWH 8).calls ↔
      (true = true ∧ shouldRebalance (initSimState scnWBcfg scnWH 8).last_rebalance_date
        0 (getRebalanceFrequencyDays scnWScfg.rebalance_frequency) = true)) ∧
    (∀ c ∈ scnWResult.calls, c.date ∈ (simulationDates scnWPh scnWBcfg).dropLast) ∧
    List.Chain'
      (fun a a2 => getRebalanceFrequencyDays scnWScfg.rebalance_frequency ≤ a2 - a)
      (scnWResult.rebalance_details.map (·.timestamp)) :=
  have h := C6_rebalance_trigger scnWStrat scnWScfg scnWBcfg scnWH scnWPh scnWResult
    (initSimState scnWBcfg scnWH 8) 0 true scnW_run_eq
  ⟨h.2.2.1, h.2.2.2.1, h.2.2.2.2.2⟩

/-! ### Look-ahead freedom (claim C8): agreement lemmas -/

theorem lookup_filter_le {β : Type} (rows : List (Date × β)) (e d : Date)
    (he : e ≤ d) :
    List.lookup e (rows.filter (fun r => decide (r.1 ≤ d))) =
      List.lookup e rows := by
  induction rows with
  | nil => rfl
  | cons r rest ih =>
    by_cases hr : r.1 ≤ d
    · rcases r with ⟨a, v⟩
      by_cases hea : e = a
      · subst hea
        simp [List.filter_cons, hr, List.lookup]
      · have hb : (e == a) = false := by simp [hea]
        simp only [List.filter_cons, decide_eq_true_eq]
        rw [if_pos hr]
        simp [List.lookup, hb, ih]
    · rcases r with ⟨a, v⟩
      have hea : e ≠ a := by
        intro hcon
        subst hcon
        exact hr he
      have hb : (e == a) = false := by simp [hea]
      simp only [List.filter_cons, decide_eq_true_eq]
      rw [if_neg hr]
      simp [List.lookup, hb, ih]

theorem lookup_map_kv {β γ : Type} (P : List (Symbol × β)) (sym : Symbol)
    (f : β → γ) :
    List.lookup sym (P.map (fun p => (p.1, f p.2))) =
      (List.lookup sym P).map f := by
  induction P with
  | nil => rfl
  | cons p rest ih =>
    rcases p with ⟨a, v⟩
    by_cases hs : sym = a
    · subst hs
      simp [List.lookup]
    · have hb : (sym == a) = false := by simp [hs]
      simp [List.lookup, hb, ih]

theorem currentPrices_truncate (P : PriceHistory) (e d : Date) (he : e ≤ d) :
    currentPrices (truncateHistory P d) e = currentPrices P e := by
  unfold currentPrices truncateHistory
  rw [List.filterMap_map]
  apply List.filterMap_congr
  intro p _
  simp only [Function.comp]
  rw [lookup_filter_le p.2.rows e d he]

theorem filter_le_le {β : Type} (rows : List (Date × β)) (e d : Date)
    (he : e ≤ d) :
    (rows.filter (fun r => decide (r.1 ≤ d))).filter
      (fun r => decide (r.1 ≤ e)) = rows.filter (fun r => decide (r.1 ≤ e)) := by
  induction rows with
  | nil => rfl
  | cons r rest ih =>
    by_cases h1 : r.1 ≤ d
    · simp only [List.filter_cons, decide_eq_true_eq]
      rw [if_pos h1]
      by_cases h2 : r.1 ≤ e
      · simp only [List.filter_cons, decide_eq_true_eq]
        rw [if_pos h2, if_pos h2, ih]
      · simp only [List.filter_cons, decide_eq_true_eq]
        rw [if_neg h2, if_neg h2, ih]
    · have h2 : ¬ r.1 ≤ e := fun hcon => h1 (le_trans hcon he)
      simp only [List.filter_cons, decide_eq_true_eq]
      rw [if_neg h1, if_neg h2, ih]

theorem truncate_truncate (P : PriceHistory) (e d : Date) (he : e ≤ d) :
    truncateHistory (truncateHistory P d) e = truncateHistory P e := by
  unfold truncateHistory
  rw [List.map_map]
  apply List.map_congr_left
  intro p _
  simp only [Function.comp]
  rw [filter_le_le p.2.rows e d he]

theorem priceAt_truncate (P : PriceHistory) (sym : Symbol) (e d : Date)
    (he : e ≤ d) :
    priceAt (truncateHistory P d) sym e = priceAt P sym e := by
  unfold priceAt truncateHistory
  rw [lookup_map_kv P sym
    (fun ser => (⟨ser.rows.filter (fun r => decide (r.1 ≤ d))⟩ : PriceSeries))]
  cases hls : List.lookup sym P
  · rfl
  · rename_i ser
    show List.lookup e (ser.rows.filter (fun r => decide (r.1 ≤ d))) =
      List.lookup e ser.rows
    exact lookup_filter_le ser.rows e d he

theorem gatherDates_truncate_mem (P : PriceHistory) (d x : Date) :
    x ∈ gatherDates (truncateHistory P d) ↔ x ∈ gatherDates P ∧ x ≤ d := by
  unfold gatherDates truncateHistory
  simp only [List.mem_flatMap, List.mem_map, List.mem_filter,
    decide_eq_true_eq]
  constructor
  · rintro ⟨p, ⟨q, hq, rfl⟩, hx⟩
    rcases hx with ⟨row, hrow, rfl⟩
    rcases List.mem_filter.1 hrow with ⟨hrmem, hrle⟩
    exact ⟨⟨q, hq, ⟨row, hrmem, rfl⟩⟩, by simpa using hrle⟩
  · rintro ⟨⟨p, hp, ⟨row, hrow, rfl⟩⟩, hxd⟩
    refine ⟨(p.1, ⟨p.2.rows.filter (fun r => decide (r.1 ≤ d))⟩),
      ⟨p, hp, rfl⟩, row, ?_, rfl⟩
    exact List.mem_filter.2 ⟨hrow, by simpa using hxd⟩

/-- Two strictly ascending lists with the same members are equal. -/
theorem sorted_mem_ext (l₁ : List Date) :
    ∀ l₂ : List Date, l₁.Pairwise (· < ·) → l₂.Pairwise (· < ·) →
      (∀ x, x ∈ l₁ ↔ x ∈ l₂) → l₁ = l₂ := by
  induction l₁ with
  | nil =>
    intro l₂ _ _ hm
    rcases l₂ with _ | ⟨b, t⟩
    · rfl
    · exact absurd ((hm b).2 (List.mem_cons_self _ _)) (List.not_mem_nil b)
  | cons a t₁ ih =>
    intro l₂ h₁ h₂ hm
    rcases l₂ with _ | ⟨b, t₂⟩
    · exact absurd ((hm a).1 (List.mem_cons_self _ _)) (List.not_mem_nil a)
    · rcases List.pairwise_cons.1 h₁ with ⟨ha, ht₁⟩
      rcases List.pairwise_cons.1 h₂ with ⟨hb, ht₂⟩
      have hab : a = b := by
        rcases List.mem_cons.1 ((hm a).1 (List.mem_cons_self _ _)) with h | h
        · exact h
        · rcases List.mem_cons.1 ((hm b).2 (List.mem_cons_self _ _)) with h' | h'
          · exact h'.symm
          · exact absurd (lt_trans (hb a h) (ha b h')) (lt_irrefl b)
      subst hab
      have htm : ∀ x, x ∈ t₁ ↔ x ∈ t₂ := by
        intro x
        constructor
        · intro hx
          rcases List.mem_cons.1 ((hm x).1 (List.mem_cons_of_mem a hx)) with h | h
          · exact absurd (h ▸ ha x hx) (lt_irrefl a)
          · exact h
        · intro hx
          rcases List.mem_cons.1 ((hm x).2 (List.mem_cons_of_mem a hx)) with h | h
          · exact absurd (h ▸ hb x hx) (lt_irrefl a)
          · exact h
      rw [ih t₂ ht₁ ht₂ htm]

/-- A strictly ascending list splits into its `≤ d` prefix and its `> d`
suffix. -/
theorem sorted_filter_split (d : Date) (l : List Date)
    (hp : l.Pairwise (· < ·)) :
    l = l.filter (fun e => decide (e ≤ d)) ++
      l.filter (fun e => !decide (e ≤ d)) := by
  induction l with
  | nil => rfl
  | cons a t ih =>
    rcases List.pairwise_cons.1 hp with ⟨ha, ht⟩
    by_cases had : a ≤ d
    · have hd1 : (decide (a ≤ d)) = true := decide_eq_true had
      rw [List.filter_cons, List.filter_cons, hd1]
      rw [if_pos rfl, if_neg (by simp)]
      rw [List.cons_append]
      congr 1
      exact ih ht
    · have htail : ∀ x ∈ t, ¬ x ≤ d := by
        intro x hx hcon
        exact had (le_trans (le_of_lt (ha x hx)) hcon)
      have h1 : t.filter (fun e => decide (e ≤ d)) = [] := by
        rw [List.filter_eq_nil_iff]
        intro x hx
        simpa using htail x hx
      have h2 : t.filter (fun e => !decide (e ≤ d)) = t := by
        rw [List.filter_eq_self]
        intro x hx
        simpa using htail x hx
      have hd1 : (decide (a ≤ d)) = false := decide_eq_false had
      rw [List.filter_cons, List.filter_cons, hd1, h1, h2]
      simp

/-- Two simulation steps at the same date `e`, over price histories that
agree at `e` (same current prices and same truncated view) and from states
with the same holdings, cash and last-rebalance date, produce the same
holdings, cash and last-rebalance date and append the same strategy-call
records. -/
theorem simStep_core_congr (strategy : Strategy) (scfg : StrategyConfig)
    (bcfg : BacktestConfig) (P Q : PriceHistory) (e : Date)
    (hpr : currentPrices P e = currentPrices Q e)
    (hth : truncateHistory P e = truncateHistory Q e)
    (sP sQ : SimState) (flag : Bool)
    (hH : sP.holdings = sQ.holdings) (hC : sP.cash = sQ.cash)
    (hL : sP.last_rebalance_date = sQ.last_rebalance_date) :
    (simStep strategy scfg bcfg P sP e flag).holdings =
      (simStep strategy scfg bcfg Q sQ e flag).holdings ∧
    (simStep strategy scfg bcfg P sP e flag).cash =
      (simStep strategy scfg bcfg Q sQ e flag).cash ∧
    (simStep strategy scfg bcfg P sP e flag).last_rebalance_date =
      (simStep strategy scfg bcfg Q sQ e flag).last_rebalance_date ∧
    ∃ δ, (simStep strategy scfg bcfg P sP e flag).calls = sP.calls ++ δ ∧
      (simStep strategy scfg bcfg Q sQ e flag).calls = sQ.calls ++ δ := by
  unfold simStep
  rw [hL]
  by_cases hcond : (shouldRebalance sQ.last_rebalance_date e
      (getRebalanceFrequencyDays scfg.rebalance_frequency) && flag) = true
  · rw [if_pos hcond, if_pos hcond]
    unfold rebalanceDay
    simp only [recordDay_holdings, recordDay_cash, recordDay_calls,
      recordDay_last_rebalance]
    rw [hH, hC, hpr, hth]
    rcases hst : strategy (currentWeights sQ.holdings (currentPrices Q e))
        (truncateHistory Q e) (currentPrices Q e) scfg with _ | res <;>
      simp only [hst] <;>
      exact ⟨by simp [hH], by simp [hC], by simp [hL],
        ⟨[⟨e, currentWeights sQ.holdings (currentPrices Q e),
          truncateHistory Q e, currentPrices Q e⟩], by simp, by simp⟩⟩
  · rw [if_neg hcond, if_neg hcond]
    refine ⟨by rw [recordDay_holdings, recordDay_holdings, hH],
      by rw [recordDay_cash, recordDay_cash, hC],
      by rw [recordDay_last_rebalance, recordDay_last_rebalance, hL], ?_⟩
    exact ⟨[], by simp, by simp⟩

/-- The calls a simulation records at dates `> d` are invisible to the
`≤ d` filter. -/
theorem simLoop_calls_filter_late (strategy : Strategy) (scfg : StrategyConfig)
    (bcfg : BacktestConfig) (ph : PriceHistory) (L : List Date) (d : Date)
    (hL : ∀ e ∈ L, d < e) (s : SimState) :
    ((simLoop strategy scfg bcfg ph s L).calls.filter
      (fun c => decide (c.date ≤ d))) =
      s.calls.filter (fun c => decide (c.date ≤ d)) := by
  rcases simLoop_calls strategy scfg bcfg ph L s with ⟨t, ht, hmem⟩
  rw [ht, List.filter_append]
  have : t.filter (fun c => decide (c.date ≤ d)) = [] := by
    rw [List.filter_eq_nil_iff]
    intro c hc
    have hcd : d < c.date := hL c.date (List.dropLast_subset L ((hmem c hc).1))
    simp
    linarith
  rw [this, List.append_nil]

/-- Processing a common `≤ d` prefix of dates, followed by nonempty tails
of dates `> d`, yields the same `≤ d`-filtered strategy-call log extension
in both runs. -/
theorem simLoop_calls_filter_congr (strategy : Strategy) (scfg : StrategyConfig)
    (bcfg : BacktestConfig) (P Q : PriceHistory) (d : Date)
    (hpr : ∀ e, e ≤ d → currentPrices P e = currentPrices Q e)
    (hth : ∀ e, e ≤ d → truncateHistory P e = truncateHistory Q e) :
    ∀ (C A' B' : List Date) (sP sQ : SimState),
      (∀ e ∈ C, e ≤ d) → A' ≠ [] → B' ≠ [] →
      (∀ e ∈ A', d < e) → (∀ e ∈ B', d < e) →
      sP.holdings = sQ.holdings → sP.cash = sQ.cash →
      sP.last_rebalance_date = sQ.last_rebalance_date →
      ∃ Δ, (simLoop strategy scfg bcfg P sP (C ++ A')).calls.filter
          (fun c => decide (c.date ≤ d)) =
          sP.calls.filter (fun c => decide (c.date ≤ d)) ++ Δ ∧
        (simLoop strategy scfg bcfg Q sQ (C ++ B')).calls.filter
          (fun c => decide (c.date ≤ d)) =
          sQ.calls.filter (fun c => decide (c.date ≤ d)) ++ Δ := by
  intro C
  induction C with
  | nil =>
    intro A' B' sP sQ _ _ _ hA hB _ _ _
    refine ⟨[], ?_, ?_⟩
    · rw [List.nil_append, List.append_nil,
        simLoop_calls_filter_late strategy scfg bcfg P A' d hA sP]
    · rw [List.nil_append, List.append_nil,
        simLoop_calls_filter_late strategy scfg bcfg Q B' d hB sQ]
  | cons e C' ih =>
    intro A' B' sP sQ hC hA' hB' hA hB hH hCa hL
    have he : e ≤ d := hC e (List.mem_cons_self _ _)
    have hflagP : (!(C' ++ A').isEmpty) = true := by
      rcases C' with _ | _
      · rcases A' with _ | _
        · exact absurd rfl hA'
        · rfl
      · rfl
    have hflagQ : (!(C' ++ B').isEmpty) = true := by
      rcases C' with _ | _
      · rcases B' with _ | _
        · exact absurd rfl hB'
        · rfl
      · rfl
    rw [List.cons_append, simLoop_cons, List.cons_append, simLoop_cons]
    rw [hflagP, hflagQ]
    obtain ⟨hH', hC', hL', δ, hδP, hδQ⟩ := simStep_core_congr strategy scfg bcfg
      P Q e (hpr e he) (hth e he) sP sQ true hH hCa hL
    obtain ⟨Δ, hP, hQ⟩ := ih A' B'
      (simStep strategy scfg bcfg P sP e true)
      (simStep strategy scfg bcfg Q sQ e true)
      (fun x hx => hC x (List.mem_cons_of_mem e hx)) hA' hB' hA hB hH' hC' hL'
    refine ⟨δ.filter (fun c => decide (c.date ≤ d)) ++ Δ, ?_, ?_⟩
    · rw [hP, hδP, List.filter_append, List.append_assoc]
    · rw [hQ, hδQ, List.filter_append, List.append_assoc]

/-- Every row of a truncated price series is dated at or before the cut. -/
theorem truncateHistory_rows_le (ph : PriceHistory) (d : Date) :
    ∀ p ∈ truncateHistory ph d, ∀ row ∈ p.2.rows, row.1 ≤ d := by
  intro p hp row hrow
  unfold truncateHistory at hp
  rcases List.mem_map.1 hp with ⟨q, _, rfl⟩
  have hrow' : row ∈ q.2.rows.filter (fun r => decide (r.1 ≤ d)) := hrow
  rcases List.mem_filter.1 hrow' with ⟨_, hle⟩
  simpa using hle

/-- The history handed to the strategy at every recorded call of a
successful run is the price history truncated at the call date. -/
theorem runSimulation_calls_truncated (strategy : Strategy) (scfg : StrategyConfig)
    (bcfg : BacktestConfig) (initH : Dict ℚ) (ph : PriceHistory) (r : SimState)
    (hok : runSimulation strategy scfg bcfg initH ph = .ok r) :
    ∀ c ∈ r.calls, c.history = truncateHistory ph c.date := by
  unfold runSimulation at hok
  split at hok
  · exact absurd hok (by simp)
  · exact absurd hok (by simp)
  · rename_i d0 d1 rest heq
    have hr : r = simLoop strategy scfg bcfg ph
        (initSimState bcfg initH (initialCash bcfg initH ph d0))
        (d0 :: d1 :: rest) := by cases hok; rfl
    subst hr
    intro c hc
    rcases simLoop_calls strategy scfg bcfg ph (d0 :: d1 :: rest)
      (initSimState bcfg initH (initialCash bcfg initH ph d0)) with ⟨t, ht, hmem⟩
    rw [ht] at hc
    have hct : c ∈ t := by
      rcases List.mem_append.1 hc with h | h
      · exact absurd h (by simp [initSimState])
      · exact h
    exact (hmem c hct).2

/-- The initial-value fold only reads prices at the first date, so two price
histories that agree there give the same initial value. -/
theorem initialValueOf_congr (hold : Dict ℚ) (P Q : PriceHistory) (d0 : Date)
    (hagr : ∀ sym, priceAt P sym d0 = priceAt Q sym d0) :
    initialValueOf hold P d0 = initialValueOf hold Q d0 := by
  unfold initialValueOf
  suffices H : ∀ (l : Dict ℚ) (acc : ℚ),
      l.foldl (fun acc p => match priceAt P p.1 d0 with
        | some px => acc + p.2 * px | none => acc) acc =
      l.foldl (fun acc p => match priceAt Q p.1 d0 with
        | some px => acc + p.2 * px | none => acc) acc from H hold 0
  intro l
  induction l with
  | nil => intro acc; rfl
  | cons p rest ih =>
    intro acc
    simp only [List.foldl_cons]
    rw [hagr p.1]
    exact ih _

/-! ### Scenario 8: the look-ahead boundary (claim C8) -/

/-- A strategy that always succeeds and trades nothing. -/
def scn8Strat : Strategy := fun _ _ _ _ => some { trades := [], new_weights := [] }

def scn8Scfg : StrategyConfig := { name := "s8", rebalance_frequency := "daily" }

def scn8Bcfg : BacktestConfig :=
  { start_date := 0, end_date := 5, initial_capital := 1 }

/-- Price data ending at date 1. -/
def scn8P : PriceHistory := [("A", ⟨[(0, 1), (1, 1)]⟩)]

/-- The same data extended by one later row, at date 2. -/
def scn8Q : PriceHistory := [("A", ⟨[(0, 1), (1, 1), (2, 1)]⟩)]

def scn8H : Dict ℚ := [("A", 1)]

/-- Final state of the run over `scn8P`: dates `[0, 1]`, and date 1 is the
last simulation date, so the strategy is called only at date 0. -/
def scn8RP : SimState :=
  { holdings := [("A", 1)]
    cash := 0
    portfolio_values := [1, 1]
    daily_returns := [0]
    timestamps := [0, 1]
    holdings_history := [[("A", 1)], [("A", 1)]]
    rebalance_details := [{ timestamp := 0, weights := [("A", 1)]
                            target_weights := [], trades := [] }]
    total_trades := 0
    winning_trades := 0
    losing_trades := 0
    executed_trades := []
    last_rebalance_date := some 0
    prev_portfolio_value := 1
    first := false
    cash_history := [0, 0]
    calls := [⟨0, [("A", 1)], [("A", ⟨[(0, 1)]⟩)], [("A", 1)]⟩] }

/-- Final state of the run over `scn8Q`: dates `[0, 1, 2]`, so the strategy
is called at dates 0 and 1. -/
def scn8RQ : SimState :=
  { holdings := [("A", 1)]
    cash := 0
    portfolio_values := [1, 1, 1]
    daily_returns := [0, 0]
    timestamps := [0, 1, 2]
    holdings_history := [[("A", 1)], [("A", 1)], [("A", 1)]]
    rebalance_details := [{ timestamp := 0, weights := [("A", 1)]
                            target_weights := [], trades := [] },
                          { timestamp := 1, weights := [("A", 1)]
                            target_weights := [], trades := [] }]
    total_trades := 0
    winning_trades := 0
    losing_trades := 0
    executed_trades := []
    last_rebalance_date := some 1
    prev_portfolio_value := 1
    first := false
    cash_history := [0, 0, 0]
    calls := [⟨0, [("A", 1)], [("A", ⟨[(0, 1)]⟩)], [("A", 1)]⟩,
              ⟨1, [("A", 1)], [("A", ⟨[(0, 1), (1, 1)]⟩)], [("A", 1)]⟩] }

theorem scn8P_run_eq :
    runSimulation scn8Strat scn8Scfg scn8Bcfg scn8H scn8P = .ok scn8RP := by
  norm_num [runSimulation, simulationDates, gatherDates, sortedDates, insertDate,
    initialCash, initialValueOf, priceAt, List.lookup, initSimState, simLoop, simStep,
    recordDay, rebalanceDay, shouldRebalance,
    currentPrices, investedTotal, positionValues, currentWeights, truncateHistory,
    findKey, List.filterMap_cons, List.sum_cons, getD0, Option.map,
    instBEqOfDecidableEq, beq_iff_eq,
    executeTrades, execStep, setKey,
    scn8Strat, scn8Scfg, scn8Bcfg, scn8P, scn8H, scn8RP]

theorem scn8Q_run_eq :
    runSimulation scn8Strat scn8Scfg scn8Bcfg scn8H scn8Q = .ok scn8RQ := by
  norm_num [runSimulation, simulationDates, gatherDates, sortedDates, insertDate,
    initialCash, initialValueOf, priceAt, List.lookup, initSimState, simLoop, simStep,
    recordDay, rebalanceDay, shouldRebalance,
    currentPrices, investedTotal, positionValues, currentWeights, truncateHistory,
    findKey, List.filterMap_cons, List.sum_cons, getD0, Option.map,
    instBEqOfDecidableEq, beq_iff_eq,
    executeTrades, execStep, setKey,
    scn8Strat, scn8Scfg, scn8Bcfg, scn8Q, scn8H, scn8RQ]

/-- C8 counterexample to the claim's "equivalently" gloss: the two price
histories `scn8P` and `scn8Q` agree up to date 1 (their truncated views at
date 1 coincide), both runs succeed, yet the strategy inputs recorded at
dates `≤ 1` differ: the run whose data stops at date 1 never calls the
strategy at date 1 (it is the final simulation date, where the engine skips
rebalancing), while the run with one extra later row does. -/
theorem C8_lookahead_boundary_counterexample :
    truncateHistory scn8P 1 = truncateHistory scn8Q 1 ∧
    runSimulation scn8Strat scn8Scfg scn8Bcfg scn8H scn8P = .ok scn8RP ∧
    runSimulation scn8Strat scn8Scfg scn8Bcfg scn8H scn8Q = .ok scn8RQ ∧
    (scn8RP.calls.filter (fun c => decide (c.date ≤ 1))).map (·.date) = [0] ∧
    (scn8RQ.calls.filter (fun c => decide (c.date ≤ 1))).map (·.date) = [0, 1] ∧
    scn8RP.calls.filter (fun c => decide (c.date ≤ 1)) ≠
      scn8RQ.calls.filter (fun c => decide (c.date ≤ 1)) := by
  refine ⟨by norm_num [truncateHistory, scn8P, scn8Q], scn8P_run_eq, scn8Q_run_eq,
    by norm_num [scn8RP], by norm_num [scn8RQ], ?_⟩
  intro hcon
  have := congrArg (fun l => l.map (fun c : StrategyCall => c.date)) hcon
  norm_num [scn8RP, scn8RQ] at this

/-- C8 (amended): no look-ahead.  (i) In every successful run, every
per-symbol price series handed to the strategy contains only rows dated at
or before the call date.  (ii) Two runs over the same configuration whose
price data agree up to date `d` (equal truncated views at `d`) record
identical strategy-call logs — same dates, portfolio weights, truncated
histories and current prices — at all dates `≤ d`, provided each run's
simulation-date axis extends past `d` (otherwise the engine's skip of the
final date can drop a boundary rebalance, as the counterexample shows). -/
theorem C8_no_lookahead (strategy : Strategy) (scfg : StrategyConfig)
    (bcfg : BacktestConfig) (initH : Dict ℚ) (P Q : PriceHistory) (d : Date)
    (rP rQ : SimState)
    (hagree : truncateHistory P d = truncateHistory Q d)
    (hokP : runSimulation strategy scfg bcfg initH P = .ok rP)
    (hokQ : runSimulation strategy scfg bcfg initH Q = .ok rQ)
    (hafterP : ∃ e ∈ simulationDates P bcfg, d < e)
    (hafterQ : ∃ e ∈ simulationDates Q bcfg, d < e) :
    (∀ c ∈ rP.calls, ∀ p ∈ c.history, ∀ row ∈ p.2.rows, row.1 ≤ c.date) ∧
    rP.calls.filter (fun c => decide (c.date ≤ d)) =
      rQ.calls.filter (fun c => decide (c.date ≤ d)) := by
  constructor
  · intro c hc p hp row hrow
    have hhist := runSimulation_calls_truncated strategy scfg bcfg initH P rP
      hokP c hc
    rw [hhist] at hp
    exact truncateHistory_rows_le P c.date p hp row hrow
  have hpr : ∀ e, e ≤ d → currentPrices P e = currentPrices Q e := by
    intro e he
    rw [← currentPrices_truncate P e d he, ← currentPrices_truncate Q e d he,
      hagree]
  have hth : ∀ e, e ≤ d → truncateHistory P e = truncateHistory Q e := by
    intro e he
    rw [← truncate_truncate P e d he, ← truncate_truncate Q e d he, hagree]
  have hpa : ∀ sym e, e ≤ d → priceAt P sym e = priceAt Q sym e := by
    intro sym e he
    rw [← priceAt_truncate P sym e d he, ← priceAt_truncate Q sym e d he, hagree]
  have hgmem : ∀ x, x ≤ d → (x ∈ gatherDates P ↔ x ∈ gatherDates Q) := by
    intro x hx
    constructor
    · intro h
      have h1 : x ∈ gatherDates (truncateHistory P d) :=
        (gatherDates_truncate_mem P d x).2 ⟨h, hx⟩
      rw [hagree] at h1
      exact ((gatherDates_truncate_mem Q d x).1 h1).1
    · intro h
      have h1 : x ∈ gatherDates (truncateHistory Q d) :=
        (gatherDates_truncate_mem Q d x).2 ⟨h, hx⟩
      rw [← hagree] at h1
      exact ((gatherDates_truncate_mem P d x).1 h1).1
  have hCeq : (simulationDates P bcfg).filter (fun e => decide (e ≤ d)) =
      (simulationDates Q bcfg).filter (fun e => decide (e ≤ d)) := by
    refine sorted_mem_ext _ _
      (List.Pairwise.filter _ (simulationDates_pairwise P bcfg))
      (List.Pairwise.filter _ (simulationDates_pairwise Q bcfg)) ?_
    intro x
    simp only [List.mem_filter, decide_eq_true_eq]
    constructor
    · rintro ⟨hx, hxd⟩
      rcases (simulationDates_mem P bcfg x).1 hx with ⟨hg, hw⟩
      exact ⟨(simulationDates_mem Q bcfg x).2 ⟨(hgmem x hxd).1 hg, hw⟩, hxd⟩
    · rintro ⟨hx, hxd⟩
      rcases (simulationDates_mem Q bcfg x).1 hx with ⟨hg, hw⟩
      exact ⟨(simulationDates_mem P bcfg x).2 ⟨(hgmem x hxd).2 hg, hw⟩, hxd⟩
  have hsplitP := sorted_filter_split d (simulationDates P bcfg)
    (simulationDates_pairwise P bcfg)
  have hsplitQ := sorted_filter_split d (simulationDates Q bcfg)
    (simulationDates_pairwise Q bcfg)
  have hAgtP : ∀ e ∈ (simulationDates P bcfg).filter (fun e => !decide (e ≤ d)),
      d < e := by
    intro e he
    rcases List.mem_filter.1 he with ⟨_, hb⟩
    have : ¬ e ≤ d := by simpa using hb
    exact lt_of_not_le this
  have hAgtQ : ∀ e ∈ (simulationDates Q bcfg).filter (fun e => !decide (e ≤ d)),
      d < e := by
    intro e he
    rcases List.mem_filter.1 he with ⟨_, hb⟩
    have : ¬ e ≤ d := by simpa using hb
    exact lt_of_not_le this
  have hAneP : (simulationDates P bcfg).filter (fun e => !decide (e ≤ d)) ≠ [] := by
    rcases hafterP with ⟨e, he, hde⟩
    exact List.ne_nil_of_mem
      (List.mem_filter.2 ⟨he, by simpa using not_le.2 hde⟩)
  have hAneQ : (simulationDates Q bcfg).filter (fun e => !decide (e ≤ d)) ≠ [] := by
    rcases hafterQ with ⟨e, he, hde⟩
    exact List.ne_nil_of_mem
      (List.mem_filter.2 ⟨he, by simpa using not_le.2 hde⟩)
  unfold runSimulation at hokP hokQ
  split at hokP
  · exact absurd hokP (by simp)
  · exact absurd hokP (by simp)
  rename_i d0P d1P restP heqP
  have hrP : rP = simLoop strategy scfg bcfg P
      (initSimState bcfg initH (initialCash bcfg initH P d0P))
      (d0P :: d1P :: restP) := by cases hokP; rfl
  split at hokQ
  · exact absurd hokQ (by simp)
  · exact absurd hokQ (by simp)
  rename_i d0Q d1Q restQ heqQ
  have hrQ : rQ = simLoop strategy scfg bcfg Q
      (initSimState bcfg initH (initialCash bcfg initH Q d0Q))
      (d0Q :: d1Q :: restQ) := by cases hokQ; rfl
  subst hrP
  subst hrQ
  rcases hfc : (simulationDates P bcfg).filter (fun e => decide (e ≤ d)) with
    _ | ⟨c0, C''⟩
  · have hallP : ∀ e ∈ simulationDates P bcfg, d < e := by
      intro e he
      rw [hsplitP, hfc, List.nil_append] at he
      exact hAgtP e he
    have hallQ : ∀ e ∈ simulationDates Q bcfg, d < e := by
      intro e he
      rw [hsplitQ, ← hCeq, hfc, List.nil_append] at he
      exact hAgtQ e he
    rw [simLoop_calls_filter_late strategy scfg bcfg P (d0P :: d1P :: restP) d
        (by rw [← heqP]; exact hallP)
        (initSimState bcfg initH (initialCash bcfg initH P d0P)),
      simLoop_calls_filter_late strategy scfg bcfg Q (d0Q :: d1Q :: restQ) d
        (by rw [← heqQ]; exact hallQ)
        (initSimState bcfg initH (initialCash bcfg initH Q d0Q))]
    simp [initSimState]
  · have hc0le : c0 ≤ d := by
      have hm : c0 ∈ (simulationDates P bcfg).filter (fun e => decide (e ≤ d)) := by
        rw [hfc]
        exact List.mem_cons_self _ _
      rcases List.mem_filter.1 hm with ⟨_, hb⟩
      simpa using hb
    have hCle : ∀ e ∈ c0 :: C'', e ≤ d := by
      intro e he
      have hm : e ∈ (simulationDates P bcfg).filter (fun e => decide (e ≤ d)) := by
        rw [hfc]
        exact he
      rcases List.mem_filter.1 hm with ⟨_, hb⟩
      simpa using hb
    have hlP : d0P :: d1P :: restP = (c0 :: C'') ++
        (simulationDates P bcfg).filter (fun e => !decide (e ≤ d)) := by
      rw [← hfc, ← heqP]
      exact hsplitP
    have hlQ : d0Q :: d1Q :: restQ = (c0 :: C'') ++
        (simulationDates Q bcfg).filter (fun e => !decide (e ≤ d)) := by
      rw [← hfc, hCeq, ← heqQ]
      exact hsplitQ
    have hlP' := hlP
    have hlQ' := hlQ
    rw [List.cons_append] at hlP' hlQ'
    injection hlP' with hd0P htlP
    injection hlQ' with hd0Q htlQ
    have hcash : initialCash bcfg initH P d0P = initialCash bcfg initH Q d0Q := by
      rw [hd0P, hd0Q]
      unfold initialCash
      rw [initialValueOf_congr initH P Q c0 (fun sym => hpa sym c0 hc0le)]
    obtain ⟨Δ, hPf, hQf⟩ := simLoop_calls_filter_congr strategy scfg bcfg P Q d
      hpr hth (c0 :: C'')
      ((simulationDates P bcfg).filter (fun e => !decide (e ≤ d)))
      ((simulationDates Q bcfg).filter (fun e => !decide (e ≤ d)))
      (initSimState bcfg initH (initialCash bcfg initH P d0P))
      (initSimState bcfg initH (initialCash bcfg initH Q d0Q))
      hCle hAneP hAneQ hAgtP hAgtQ rfl hcash rfl
    rw [hlP, hlQ, hPf, hQf]
    simp [initSimState]

/-- C8 witness: the amended theorem applied to the `scnW` run against
itself at cut date 1; its date axis `[0, 1, 2]` extends past 1. -/
theorem C8_no_lookahead_witness :
    (∀ c ∈ scnWResult.calls, ∀ p ∈ c.history, ∀ row ∈ p.2.rows,
      row.1 ≤ c.date) ∧
    scnWResult.calls.filter (fun c => decide (c.date ≤ 1)) =
      scnWResult.calls.filter (fun c => decide (c.date ≤ 1)) :=
  C8_no_lookahead scnWStrat scnWScfg scnWBcfg scnWH scnWPh scnWPh 1
    scnWResult scnWResult rfl scnW_run_eq scnW_run_eq
    ⟨2, by decide, by decide⟩ ⟨2, by decide, by decide⟩

end Fractal
